import Mathlib

/-!
Verification development for the structural value codec and schema-compatibility
analyzer of the model-os repository.

The Lean definitions below are a shallow embedding of the Python source:

* `src/modelos/util/version.py` — `VersionBump`, `merge_bump`;
* `src/modelos/object/version.py` — `calc_component_bump`, `calc_schema_bump`;
* `src/modelos/object/encoding.py` — `json_is_type_match`, `deep_isinstance`,
  `encode_any`, `decode_any` and their helper predicates;
* `src/modelos/object/schema.py` — `build_json_schema`.

Python runtime values are modelled by `PyVal`; the (reflection-derived) type
annotations driving the codec are modelled by the closed descriptor type `Ty`
(`Primitive`, `Optional`/`Union`, `List`, `Dict[str, ·]`, `Tuple`, `Enum`,
record classes with annotations, `Any`, `NoneType`).  Python exceptions
(`KeyError`, `IndexError`, `TypeError`, `ValueError`, `AttributeError`) are
modelled with `Except`.  Machine integers do not occur in the modelled code.
-/

/-- Evaluation rule for `Except` bind on a success value. -/
@[simp] theorem okBind {ε α β : Type} (a : α) (f : α → Except ε β) :
    (Except.ok a : Except ε α) >>= f = f a := rfl

/-- Evaluation rule for `Except` bind on an error value. -/
@[simp] theorem errBind {ε α β : Type} (e : ε) (f : α → Except ε β) :
    (Except.error e : Except ε α) >>= f = Except.error e := rfl

/-- `pure` on `Except` is `Except.ok`. -/
@[simp] theorem pureExceptEq {ε α : Type} (a : α) : (pure a : Except ε α) = Except.ok a := rfl

/-- `throw` on `Except` is `Except.error`. -/
@[simp] theorem throwExceptEq {ε α : Type} (e : ε) : (throw e : Except ε α) = Except.error e := rfl

/-- The five first-order primitive kinds of `FIRST_ORDER_PRIMITIVES`
(`encoding.py`): `int`, `str`, `float`, `bool`, `bytes`. -/
inductive PrimKind where
  | int
  | float
  | bool
  | str
  | bytes
deriving DecidableEq, Repr

/-- Scalar constants: the underlying values of `Enum` members and schema
`default` values.  Floats are carried as an opaque payload (`0` standing for
`0.0`); the codec never computes with them. -/
inductive Scalar where
  | int (n : Int)
  | float (payload : Nat)
  | bool (b : Bool)
  | str (s : String)
deriving DecidableEq, Repr

/-- A Python runtime value as seen by the codec: scalars, `None`, lists,
tuples, string-keyed dicts (insertion ordered, modelled as association lists),
enum members (an object carrying its class name, member name and `.value`),
and plain class instances (carrying the class name and `__dict__`).
JSON wire values are the sub-language without `tuple`, `enumv` and `obj`. -/
inductive PyVal where
  | none
  | bool (b : Bool)
  | int (n : Int)
  | float (payload : Nat)
  | str (s : String)
  | bytes (payload : String)
  | list (xs : List PyVal)
  | tuple (xs : List PyVal)
  | dict (kvs : List (String × PyVal))
  | enumv (ename : String) (label : String) (val : Scalar)
  | obj (cname : String) (fields : List (String × PyVal))
deriving Repr

/-- A Python type annotation as dispatched on by `encoding.py`:
`prim k` for the first-order classes, `noneT` for `NoneType`, `anyT` for
`typing.Any`, `listOf`/`mapOf`/`tupleOf` for typed containers (`Dict` keys are
always `str` in this code base), `unionOf` for a (flattened) `Union` —
`Optional X` is `unionOf [X, noneT]` as produced by Python's `typing` —
`enumOf` for an `Enum` subclass with its `(member name, value)` map, and
`recordOf` for an annotated class with its `get_type_hints` field map. -/
inductive Ty where
  | prim (k : PrimKind)
  | noneT
  | anyT
  | listOf (e : Ty)
  | mapOf (value : Ty)
  | tupleOf (es : List Ty)
  | unionOf (vs : List Ty)
  | enumOf (ename : String) (members : List (String × Scalar))
  | recordOf (cname : String) (fields : List (String × Ty))
deriving Repr

/-- Association-list lookup with Python `dict` semantics (`d[k]`, `k in d`):
first binding wins, keys are unique in any dict produced by the source. -/
def lookupKey {α : Type} (k : String) : List (String × α) → Option α
  | [] => Option.none
  | (k', v) :: rest => if k' = k then some v else lookupKey k rest

/-- A successful `lookupKey` returns a structurally smaller value; used for
termination of the recursions that index one schema by the keys of another. -/
theorem sizeOf_of_lookupKey {α : Type} [SizeOf α] {k : String} {l : List (String × α)} {b : α}
    (h : lookupKey k l = some b) : sizeOf b < sizeOf l := by
  induction l with
  | nil => simp [lookupKey] at h
  | cons hd tl ih =>
    rw [lookupKey] at h
    split at h
    · injection h with h2
      subst h2
      rcases hd with ⟨k', v⟩
      simp only [List.cons.sizeOf_spec, Prod.mk.sizeOf_spec]
      omega
    · have := ih h
      simp only [List.cons.sizeOf_spec]
      omega

/-- The `VersionBump` enum of `src/modelos/util/version.py`. -/
inductive VersionBump where
  | NONE
  | PATCH
  | MINOR
  | MAJOR
deriving DecidableEq, Repr

/-- The `.value` of each `VersionBump` member. -/
def VersionBump.val : VersionBump → Nat
  | .NONE => 0
  | .PATCH => 1
  | .MINOR => 2
  | .MAJOR => 3

/-- `merge_bump` of `src/modelos/util/version.py`: keep the larger bump. -/
def merge_bump (old_bump new_bump : VersionBump) : VersionBump :=
  if new_bump.val > old_bump.val then new_bump else old_bump

/-- A JSON-schema dictionary as produced by `build_json_schema` and consumed
by `calc_component_bump`.  Each field models the presence or absence of the
corresponding dictionary key; the diff code only tests `oneOf` for presence
but `build_json_schema` fills it with sub-schemas, so the list is kept. -/
inductive Schema where
  | mk (type? : Option String) (format? : Option String) (default? : Option Scalar)
      (properties? : Option (List (String × Schema)))
      (required? : Option (List String))
      (additionalProperties? : Option Schema)
      (items? : Option Schema)
      (prefixItems? : Option (List Schema))
      (oneOf? : Option (List Schema))
      (enum? : Option (List Scalar)) : Schema

/-- The `"type"` key. -/
def Schema.type? : Schema → Option String
  | .mk t _ _ _ _ _ _ _ _ _ => t

/-- The `"format"` key. -/
def Schema.format? : Schema → Option String
  | .mk _ f _ _ _ _ _ _ _ _ => f

/-- The `"default"` key. -/
def Schema.default? : Schema → Option Scalar
  | .mk _ _ d _ _ _ _ _ _ _ => d

/-- The `"properties"` key. -/
def Schema.properties? : Schema → Option (List (String × Schema))
  | .mk _ _ _ p _ _ _ _ _ _ => p

/-- The `"required"` key. -/
def Schema.required? : Schema → Option (List String)
  | .mk _ _ _ _ r _ _ _ _ _ => r

/-- The `"additionalProperties"` key. -/
def Schema.additionalProperties? : Schema → Option Schema
  | .mk _ _ _ _ _ a _ _ _ _ => a

/-- The `"items"` key. -/
def Schema.items? : Schema → Option Schema
  | .mk _ _ _ _ _ _ i _ _ _ => i

/-- The `"prefixItems"` key. -/
def Schema.prefixItems? : Schema → Option (List Schema)
  | .mk _ _ _ _ _ _ _ p _ _ => p

/-- The `"oneOf"` key. -/
def Schema.oneOf? : Schema → Option (List Schema)
  | .mk _ _ _ _ _ _ _ _ o _ => o

/-- The `"enum"` key. -/
def Schema.enum? : Schema → Option (List Scalar)
  | .mk _ _ _ _ _ _ _ _ _ e => e

/-- Python exceptions that can escape the schema-diff functions. -/
inductive DiffErr where
  | keyError (k : String)
  | valueError (msg : String)
deriving DecidableEq, Repr

/-- `d["k"]` on a modelled dictionary field: a missing key raises `KeyError`. -/
def getKey {α : Type} (v : Option α) (k : String) : Except DiffErr α :=
  match v with
  | some a => Except.ok a
  | Option.none => Except.error (DiffErr.keyError k)

/-- `lookupKey` only returns entries of the list (size bound used for
termination through cross-schema lookups). -/
theorem sizeOf_properties {s : Schema} {l : List (String × Schema)}
    (h : s.properties? = some l) : sizeOf l < sizeOf s := by
  rcases s with ⟨t, f, d, p, r, a, i, pi, o, e⟩
  simp [Schema.properties?] at h
  subst h
  simp [Schema.mk.sizeOf_spec]
  omega

/-- Size bound for the `additionalProperties` sub-schema. -/
theorem sizeOf_additionalProperties {s : Schema} {a : Schema}
    (h : s.additionalProperties? = some a) : sizeOf a < sizeOf s := by
  rcases s with ⟨t, f, d, p, r, ap, i, pi, o, e⟩
  simp [Schema.additionalProperties?] at h
  subst h
  simp [Schema.mk.sizeOf_spec]
  omega

/-- Size bound for the `items` sub-schema. -/
theorem sizeOf_items {s : Schema} {a : Schema}
    (h : s.items? = some a) : sizeOf a < sizeOf s := by
  rcases s with ⟨t, f, d, p, r, ap, i, pi, o, e⟩
  simp [Schema.items?] at h
  subst h
  simp [Schema.mk.sizeOf_spec]
  omega

/-- Size bound for the `prefixItems` sub-schema list. -/
theorem sizeOf_prefixItems {s : Schema} {l : List Schema}
    (h : s.prefixItems? = some l) : sizeOf l < sizeOf s := by
  rcases s with ⟨t, f, d, p, r, ap, i, pi, o, e⟩
  simp [Schema.prefixItems?] at h
  subst h
  simp [Schema.mk.sizeOf_spec]
  omega

/-- `FIRST_ORDER_SCHEMA` of `version.py`. -/
def FIRST_ORDER_SCHEMA : List String := ["string", "number", "boolean"]

/-- The loop `for req in old_schema["required"]` of `calc_component_bump`:
each iteration evaluates `req not in new_schema["required"]`, re-indexing
`new_schema` — a `KeyError` when the new schema has no `required` key. -/
def requiredOldLoop (old_req : List String) (new_req? : Option (List String))
    (current_bump : VersionBump) : Except DiffErr VersionBump :=
  match old_req with
  | [] => Except.ok current_bump
  | req :: rest => do
    let new_req ← getKey new_req? "required"
    let cur := if req ∈ new_req then current_bump else merge_bump current_bump VersionBump.PATCH
    requiredOldLoop rest new_req? cur

mutual

/-- `calc_component_bump` of `src/modelos/object/version.py`.  The `path`,
`action` and `parent` arguments feed only the source's log messages.  Early
`return` statements inside the property/item loops are modelled by the loop
helpers returning `MAJOR`, which the caller immediately propagates — the
running bump can only reach `MAJOR` at a point where the source returns. -/
def calc_component_bump (old_schema new_schema : Schema) (path action parent : String)
    (current_bump : VersionBump) : Except DiffErr VersionBump :=
  if old_schema.oneOf?.isSome && !new_schema.oneOf?.isSome then
    Except.ok VersionBump.MAJOR
  else
    let current_bump :=
      if new_schema.oneOf?.isSome && !old_schema.oneOf?.isSome then
        merge_bump current_bump VersionBump.PATCH
      else current_bump
    do
    let old_type ← getKey old_schema.type? "type"
    let new_type ← getKey new_schema.type? "type"
    if current_bump = VersionBump.MAJOR then
      Except.ok current_bump
    else if old_type = "object" then
      if new_type ≠ "object" then Except.ok VersionBump.MAJOR
      else do
        let current_bump ← (match h : old_schema.properties? with
          | Option.none => Except.ok current_bump
          | some old_props =>
            match h2 : new_schema.properties? with
            | Option.none => Except.ok VersionBump.MAJOR
            | some new_props => do
              let cur ← propsOldLoop old_props new_props path action parent current_bump
              if cur = VersionBump.MAJOR then Except.ok cur
              else propsNewLoop new_props old_props path action parent cur)
        if current_bump = VersionBump.MAJOR then Except.ok current_bump else do
        let current_bump ← (match old_schema.required? with
          | Option.none => Except.ok current_bump
          | some old_req =>
            let cur :=
              if !new_schema.required?.isSome then merge_bump current_bump VersionBump.PATCH
              else current_bump
            requiredOldLoop old_req new_schema.required? cur)
        let current_bump ← (match new_schema.required? with
          | Option.none => Except.ok current_bump
          | some new_req =>
            match old_schema.required? with
            | Option.none => Except.ok VersionBump.MAJOR
            | some old_req =>
              if new_req.any (fun req => !(old_req.contains req)) then Except.ok VersionBump.MAJOR
              else Except.ok current_bump)
        if current_bump = VersionBump.MAJOR then Except.ok current_bump else do
        let current_bump ← (match h : old_schema.additionalProperties? with
          | Option.none => Except.ok current_bump
          | some old_ap =>
            match h2 : new_schema.additionalProperties? with
            | Option.none => Except.ok VersionBump.MAJOR
            | some new_ap => do
              let r ← calc_component_bump old_ap new_ap path action
                (parent ++ ".additionalProperties") current_bump
              Except.ok (merge_bump current_bump r))
        Except.ok current_bump
    else if FIRST_ORDER_SCHEMA.contains old_type then do
      if old_type ≠ new_type then Except.ok VersionBump.MAJOR
      else match old_schema.format? with
        | Option.none => Except.ok current_bump
        | some old_fmt => do
          let new_fmt ← getKey new_schema.format? "format"
          if old_fmt ≠ new_fmt then Except.ok VersionBump.MAJOR
          else Except.ok current_bump
    else if old_type = "array" then do
      if new_type ≠ "array" then Except.ok VersionBump.MAJOR
      else do
        let current_bump ← (match h : old_schema.items? with
          | Option.none => Except.ok current_bump
          | some old_items =>
            match h2 : new_schema.items? with
            | Option.none => Except.ok VersionBump.MAJOR
            | some new_items => do
              let r ← calc_component_bump old_items new_items path action
                (parent ++ ".items") current_bump
              Except.ok (merge_bump current_bump r))
        if current_bump = VersionBump.MAJOR then Except.ok current_bump else do
        let current_bump ← (match h : old_schema.prefixItems? with
          | Option.none => Except.ok current_bump
          | some old_pre =>
            match h2 : new_schema.prefixItems? with
            | Option.none => Except.ok VersionBump.MAJOR
            | some new_pre =>
              if new_pre.length ≠ old_pre.length then Except.ok VersionBump.MAJOR
              else prefixItemsLoop old_pre new_pre path action parent current_bump)
        Except.ok current_bump
    else
      Except.error (DiffErr.valueError ("unkown type for schema: " ++ old_type))
termination_by 2 * (sizeOf old_schema + sizeOf new_schema) + 1
decreasing_by
  all_goals
    first
      | (have a1 := sizeOf_properties h; have a2 := sizeOf_properties h2; omega)
      | (have a1 := sizeOf_additionalProperties h; have a2 := sizeOf_additionalProperties h2; omega)
      | (have a1 := sizeOf_items h; have a2 := sizeOf_items h2; omega)
      | (have a1 := sizeOf_prefixItems h; have a2 := sizeOf_prefixItems h2; omega)

/-- The loop `for old_name, old_sch in old_props.items()` of
`calc_component_bump`: a property missing from the new schema returns `MAJOR`;
otherwise the recursive bump is merged and `MAJOR` returns immediately. -/
def propsOldLoop (old_props new_props : List (String × Schema)) (path action parent : String)
    (current_bump : VersionBump) : Except DiffErr VersionBump :=
  match old_props with
  | [] => Except.ok current_bump
  | (old_name, old_sch) :: rest =>
    match h : lookupKey old_name new_props with
    | Option.none => Except.ok VersionBump.MAJOR
    | some new_sch => do
      let r ← calc_component_bump old_sch new_sch path action (parent ++ "." ++ old_name) current_bump
      let cur := merge_bump current_bump r
      if cur = VersionBump.MAJOR then Except.ok cur
      else propsOldLoop rest new_props path action parent cur
termination_by 2 * (sizeOf old_props + sizeOf new_props)
decreasing_by
  all_goals
    (try have a1 := sizeOf_of_lookupKey h)
    all_goals simp only [List.cons.sizeOf_spec, Prod.mk.sizeOf_spec]
    all_goals omega

/-- The loop `for new_name, new_sch in new_props.items()` of
`calc_component_bump`.  After the added-property `MINOR` merge the source
unconditionally evaluates `old_props[new_name]`, so an added property raises
`KeyError` (the merged `MINOR` is discarded with the exception). -/
def propsNewLoop (new_props old_props : List (String × Schema)) (path action parent : String)
    (current_bump : VersionBump) : Except DiffErr VersionBump :=
  match new_props with
  | [] => Except.ok current_bump
  | (new_name, new_sch) :: rest =>
    match h : lookupKey new_name old_props with
    | Option.none => Except.error (DiffErr.keyError new_name)
    | some old_sch => do
      let r ← calc_component_bump old_sch new_sch path action (parent ++ "." ++ new_name) current_bump
      let cur := merge_bump current_bump r
      if cur = VersionBump.MAJOR then Except.ok cur
      else propsNewLoop rest old_props path action parent cur
termination_by 2 * (sizeOf new_props + sizeOf old_props)
decreasing_by
  all_goals
    (try have a1 := sizeOf_of_lookupKey h)
    all_goals simp only [List.cons.sizeOf_spec, Prod.mk.sizeOf_spec]
    all_goals omega

/-- The loop `for i, old_item in enumerate(old_schema["prefixItems"])` of
`calc_component_bump`; the two lists have equal length when it is entered. -/
def prefixItemsLoop (old_items new_items : List Schema) (path action parent : String)
    (current_bump : VersionBump) : Except DiffErr VersionBump :=
  match old_items, new_items with
  | [], _ => Except.ok current_bump
  | _ :: _, [] => Except.error (DiffErr.keyError "prefixItems")
  | old_item :: rest, new_item :: new_rest => do
      let r ← calc_component_bump old_item new_item path action
        (parent ++ ".prefixItems") current_bump
      let cur := merge_bump current_bump r
      if cur = VersionBump.MAJOR then Except.ok cur
      else prefixItemsLoop rest new_rest path action parent cur
termination_by 2 * (sizeOf old_items + sizeOf new_items)
decreasing_by
  all_goals simp only [List.cons.sizeOf_spec, Prod.mk.sizeOf_spec]
  all_goals omega

end

/-- Outcome of one loop of `calc_schema_bump`: `earlyReturn` models a `return`
statement aborting the whole function, `finished` a normal loop exit carrying
the running bump. -/
inductive SchemaLoopResult where
  | earlyReturn (b : VersionBump)
  | finished (b : VersionBump)
deriving DecidableEq, Repr

/-- The `"paths"` table of an OpenAPI interface document: path → action →
request schema.  The source reads the request schema through the fixed chain
`val["requestBody"]["content"]["application/json"]["schema"]`; the model
stores that schema directly under the action. -/
abbrev Paths := List (String × List (String × Schema))

/-- Inner loop of the first pass of `calc_schema_bump`
(`for action, val in old_paths[path].items()`): a missing action returns
`MAJOR`; otherwise `bump = calc_component_bump(old_req, new_req, path, action,
current_bump=bump)` is threaded through the loop. -/
def schemaActionsLoop (old_actions new_actions : List (String × Schema)) (path : String)
    (bump : VersionBump) : Except DiffErr SchemaLoopResult :=
  match old_actions with
  | [] => Except.ok (SchemaLoopResult.finished bump)
  | (action, old_req_schema) :: rest =>
    match lookupKey action new_actions with
    | Option.none => Except.ok (SchemaLoopResult.earlyReturn VersionBump.MAJOR)
    | some new_req_schema => do
      let bump ← calc_component_bump old_req_schema new_req_schema path action "" bump
      schemaActionsLoop rest new_actions path bump

/-- First pass of `calc_schema_bump` (`for path in old_paths`): a path missing
from the new document returns `MAJOR` immediately. -/
def schemaOldPathsLoop (old_paths new_paths : Paths) (bump : VersionBump) :
    Except DiffErr SchemaLoopResult :=
  match old_paths with
  | [] => Except.ok (SchemaLoopResult.finished bump)
  | (path, old_actions) :: rest =>
    match lookupKey path new_paths with
    | Option.none => Except.ok (SchemaLoopResult.earlyReturn VersionBump.MAJOR)
    | some new_actions => do
      let r ← schemaActionsLoop old_actions new_actions path bump
      match r with
      | SchemaLoopResult.earlyReturn b => Except.ok (SchemaLoopResult.earlyReturn b)
      | SchemaLoopResult.finished bump => schemaOldPathsLoop rest new_paths bump

/-- Second pass of `calc_schema_bump` (`for path in new_paths`): a path or
action added in the new document makes the function `return MINOR`
immediately, whatever bump the first pass accumulated. -/
def schemaNewPathsLoop (new_paths old_paths : Paths) : Option VersionBump :=
  match new_paths with
  | [] => Option.none
  | (path, new_actions) :: rest =>
    match lookupKey path old_paths with
    | Option.none => some VersionBump.MINOR
    | some old_actions =>
      if new_actions.any (fun kv => (lookupKey kv.1 old_actions).isNone) then
        some VersionBump.MINOR
      else schemaNewPathsLoop rest old_paths

/-- `calc_schema_bump` of `src/modelos/object/version.py`: diff two OpenAPI
interface documents path by path. -/
def calc_schema_bump (old_paths new_paths : Paths) : Except DiffErr VersionBump := do
  let r ← schemaOldPathsLoop old_paths new_paths VersionBump.NONE
  match r with
  | SchemaLoopResult.earlyReturn b => Except.ok b
  | SchemaLoopResult.finished bump =>
    match schemaNewPathsLoop new_paths old_paths with
    | some b => Except.ok b
    | Option.none => Except.ok bump

/-- A schema dictionary containing only a `"type"` key. -/
def typeOnlySchema (t : String) : Schema :=
  Schema.mk (some t) Option.none Option.none Option.none Option.none Option.none
    Option.none Option.none Option.none Option.none

/-- An object schema with the given `"properties"` and optional `"required"`. -/
def objSchema (props : List (String × Schema)) (req : Option (List String)) : Schema :=
  Schema.mk (some "object") Option.none Option.none (some props) req Option.none
    Option.none Option.none Option.none Option.none

/-- Old interface for C1: one path `/a` whose request schema has type `string`. -/
def pathsC1old : Paths := [("/a", [("post", typeOnlySchema "string")])]

/-- New interface for C1: `/a` changed to type `number` (a MAJOR change) and a
fresh path `/b` added. -/
def pathsC1new : Paths :=
  [("/a", [("post", typeOnlySchema "number")]), ("/b", [("post", typeOnlySchema "string")])]

/-- Diffing two identical `string`-typed schemas leaves the running bump
unchanged, whatever the logging arguments and running bump are. -/
theorem stringSelfDiff (path action parent : String) (cur : VersionBump) :
    calc_component_bump (typeOnlySchema "string") (typeOnlySchema "string")
      path action parent cur = Except.ok cur := by
  rw [calc_component_bump]
  simp [typeOnlySchema, Schema.oneOf?, Schema.type?, Schema.format?,
    getKey, FIRST_ORDER_SCHEMA]

/-- Diffing a `string`-typed schema against a `number`-typed one yields
`MAJOR` (used inside the C1 interface diff). -/
theorem stringNumberDiff :
    calc_component_bump (typeOnlySchema "string") (typeOnlySchema "number")
      "/a" "post" "" VersionBump.NONE = Except.ok VersionBump.MAJOR := by
  rw [calc_component_bump]
  simp [typeOnlySchema, Schema.oneOf?, Schema.type?, Schema.format?,
    getKey, FIRST_ORDER_SCHEMA]

/-- C1: the `VersionBump` accumulator of one diff pass is claimed to be
append-only — once any check yields `MAJOR` the final diff result must be
`MAJOR`.  The code violates this: with the old interface `pathsC1old` and the
new interface `pathsC1new`, the common path `/a` diffs to `MAJOR` (first
conjunct), yet `calc_schema_bump` returns `MINOR` (second conjunct), because
the added-path check `return VersionBump.MINOR` discards the accumulated
bump. -/
theorem C1_major_then_added_path_returns_minor :
    calc_component_bump (typeOnlySchema "string") (typeOnlySchema "number")
      "/a" "post" "" VersionBump.NONE = Except.ok VersionBump.MAJOR
    ∧ calc_schema_bump pathsC1old pathsC1new = Except.ok VersionBump.MINOR := by
  refine ⟨stringNumberDiff, ?_⟩
  simp [calc_schema_bump, schemaOldPathsLoop, schemaActionsLoop, schemaNewPathsLoop,
    pathsC1old, pathsC1new, lookupKey, stringNumberDiff]

/-- Old schema for C2: object with property `b` (a string), `required: ["b"]`. -/
def schemaC2old : Schema := objSchema [("b", typeOnlySchema "string")] (some ["b"])

/-- New schema for C2: same property `b`, the `required` key removed. -/
def schemaC2new : Schema := objSchema [("b", typeOnlySchema "string")] Option.none

/-- C2: the spec says removing `required: [b]` while keeping property `b`
diffs to `PATCH`.  The code logs the patch bump and then evaluates
`req not in new_schema["required"]`, raising `KeyError("required")` instead of
returning. -/
theorem C2_removed_required_raises_keyerror :
    calc_component_bump schemaC2old schemaC2new "/train" "post" "" VersionBump.NONE
      = Except.error (DiffErr.keyError "required") := by
  rw [calc_component_bump]
  simp [schemaC2old, schemaC2new, objSchema, Schema.oneOf?, Schema.type?,
    Schema.properties?, Schema.required?, Schema.additionalProperties?, getKey,
    FIRST_ORDER_SCHEMA, propsOldLoop, propsNewLoop, lookupKey, stringSelfDiff,
    requiredOldLoop, merge_bump, VersionBump.val]

/-- Old schema for C3: object with string properties `a` and `b`. -/
def schemaC3old : Schema :=
  objSchema [("a", typeOnlySchema "string"), ("b", typeOnlySchema "string")] Option.none

/-- New schema for C3: property `c` added to `a` and `b`. -/
def schemaC3new : Schema :=
  objSchema [("a", typeOnlySchema "string"), ("b", typeOnlySchema "string"),
    ("c", typeOnlySchema "string")] Option.none

/-- C3: the spec says adding an optional property `c` diffs to `MINOR`.  The
code logs the minor bump and then unconditionally evaluates
`old_props[new_name]`, raising `KeyError("c")` instead of returning. -/
theorem C3_added_property_raises_keyerror :
    calc_component_bump schemaC3old schemaC3new "/train" "post" "" VersionBump.NONE
      = Except.error (DiffErr.keyError "c") := by
  rw [calc_component_bump]
  simp [schemaC3old, schemaC3new, objSchema, Schema.oneOf?, Schema.type?,
    Schema.properties?, Schema.required?, Schema.additionalProperties?, getKey,
    FIRST_ORDER_SCHEMA, propsOldLoop, propsNewLoop, lookupKey, stringSelfDiff,
    merge_bump, VersionBump.val]

/-- Python exceptions that can escape the codec functions of `encoding.py`. -/
inductive EncErr where
  | indexError
  | keyError (k : String)
  | attributeError (msg : String)
  | typeError (msg : String)
  | valueError (msg : String)
  | notImplementedError (msg : String)
deriving DecidableEq, Repr

/-- `is_first_order` of `encoding.py`: membership in `FIRST_ORDER_PRIMITIVES`
(the `__origin__` clause concerns subscripted primitives, which do not occur
in the modelled annotation language). -/
def isFirstOrderTy : Ty → Bool
  | .prim _ => true
  | _ => false

/-- `is_optional` of `encoding.py`: `get_origin(t) is Union and type(None) in
get_args(t)`. -/
def is_optionalTy : Ty → Bool
  | .unionOf vs => vs.any fun v => match v with | .noneT => true | _ => false
  | _ => false

/-- Python equality between an enum member's underlying scalar and a wire
value, as used by `EnumCls(jdict)` and the enum arm of `json_is_type_match`.
Python's cross-kind numeric equalities (`True == 1`, `1 == 1.0`) are not
modelled; the enums in this code base have same-kind member values. -/
def scalarEqPyVal (s : Scalar) (v : PyVal) : Bool :=
  match s, v with
  | .int n, .int m => decide (n = m)
  | .float p, .float q => decide (p = q)
  | .bool a, .bool b => a == b
  | .str a, .str b => a == b
  | _, _ => false

/-- Plain `isinstance(obj, t)`.  Subscripted generics, unions and `typing.Any`
are not classes and raise `TypeError`.  `bool` is a subclass of `int` in
Python, so an `int` check accepts booleans; subclassing of user classes is not
modelled (a class check compares the class name). -/
def py_isinstance (obj : PyVal) (t : Ty) : Except EncErr Bool :=
  match t with
  | .prim .int => Except.ok (match obj with | .int _ => true | .bool _ => true | _ => false)
  | .prim .float => Except.ok (match obj with | .float _ => true | _ => false)
  | .prim .bool => Except.ok (match obj with | .bool _ => true | _ => false)
  | .prim .str => Except.ok (match obj with | .str _ => true | _ => false)
  | .prim .bytes => Except.ok (match obj with | .bytes _ => true | _ => false)
  | .noneT => Except.ok (match obj with | .none => true | _ => false)
  | .recordOf cname _ => Except.ok (match obj with | .obj cn _ => cn == cname | _ => false)
  | .enumOf ename _ => Except.ok (match obj with | .enumv en _ _ => en == ename | _ => false)
  | _ => Except.error (EncErr.typeError "isinstance argument 2 cannot be a parameterized generic")

/-- The tuple loop of `deep_isinstance`: an `Any` argument returns true, a
failing element returns false, and `obj[i]` past the end of the tuple raises
`IndexError`.  When the loop completes without returning, control falls
through to the final `return False` of `deep_isinstance`. -/
def deepTupleLoop (es : List Ty) (xs : List PyVal) : Except EncErr Bool :=
  match es with
  | [] => Except.ok false
  | e :: rest =>
    match e with
    | .anyT => Except.ok true
    | _ =>
      match xs with
      | [] => Except.error EncErr.indexError
      | x :: xs' => do
        let b ← py_isinstance x e
        if b then deepTupleLoop rest xs' else Except.ok false

/-- The dict-values loop of `deep_isinstance`: `isinstance(v, args[1])` for
every value. -/
def deepDictValuesLoop (kvs : List (String × PyVal)) (ve : Ty) : Except EncErr Bool :=
  match kvs with
  | [] => Except.ok true
  | (_, v) :: rest => do
    let b ← py_isinstance v ve
    if b then deepDictValuesLoop rest ve else Except.ok false

/-- `deep_isinstance` of `encoding.py`, the structural check used by the
union arm of `encode_any`.  It inspects only element 0 of a list (raising
`IndexError` on an empty list), never recurses (container members are checked
with plain `isinstance`), and for a fully matching tuple falls through to the
final `return False`.  A bare `Union` or `typing.Any` argument reaches the
final `else` (`type not supported`); Python flattens nested unions, so the
union case is unreachable from the codec. -/
def deep_isinstance (obj : PyVal) (t : Ty) : Except EncErr Bool :=
  match t with
  | .noneT => Except.ok (match obj with | .none => true | _ => false)
  | .mapOf ve =>
    (match obj with
    | .dict kvs =>
      match ve with
      | .anyT => Except.ok true
      | _ => deepDictValuesLoop kvs ve
    | _ => Except.ok false)
  | .listOf e =>
    (match obj with
    | .list xs =>
      match e with
      | .anyT => Except.ok true
      | _ =>
        match xs with
        | [] => Except.error EncErr.indexError
        | x :: _ => py_isinstance x e
    | _ => Except.ok false)
  | .tupleOf es =>
    (match obj with
    | .tuple xs => deepTupleLoop es xs
    | _ => Except.ok false)
  | .prim k => py_isinstance obj (.prim k)
  | .recordOf cname fields => py_isinstance obj (.recordOf cname fields)
  | .enumOf ename members => py_isinstance obj (.enumOf ename members)
  | .unionOf _ => Except.error (EncErr.typeError "type not supported")
  | .anyT => Except.error (EncErr.typeError "type not supported")

/-- The optional-normalization shared by the union arms of `encode_any` and
`decode_any`: `if len(args) == 2 and args[1] == NoneType: args = (args[1],
args[0])`.  Note that this puts the null variant FIRST in the trial order
(Python's `Optional[X]` arrives as `(X, NoneType)`). -/
def normalize_union (args : List Ty) : List Ty :=
  match args with
  | [a, b] =>
    (match b with
    | .noneT => [Ty.noneT, a]
    | _ => [a, b])
  | _ => args

mutual

/-- `json_is_type_match` of `encoding.py`, the Structural Matcher used by the
union arm of `decode_any` and as a payload validator.  Branches in source
order: `NoneType`, `is_optional`, a `None` wire value, first-order
`isinstance`, `Any`, annotated classes, typed dicts, lists, tuples, unions,
enums.  The `is_iterable_cls` unwrapping of a `"response"` key concerns
`Iterable`/`Iterator` annotations, which do not occur in the modelled
annotation language.  Iterating a dict yields its keys; iterating a
non-container raises `TypeError`. -/
def json_is_type_match (t : Ty) (jdict : PyVal) : Except EncErr Bool :=
  match t with
  | .noneT => Except.ok (match jdict with | .none => true | _ => false)
  | .unionOf vs =>
    if is_optionalTy (.unionOf vs) then
      -- `return json_is_type_match(args[0], jdict) or json_is_type_match(args[1], jdict)`
      -- (`or` short-circuits; only the first two variants are ever consulted)
      match vs with
      | [] => Except.error EncErr.indexError
      | a0 :: rest => do
        let b ← json_is_type_match a0 jdict
        if b then Except.ok true
        else
          match rest with
          | a1 :: _ => json_is_type_match a1 jdict
          | [] => Except.error EncErr.indexError
    else
      (match jdict with
      | .none => Except.ok false          -- `if jdict is None: return t == NoneType`
      | _ => jsonUnionLoop vs jdict)
  | .prim k =>
    (match jdict with
    | .none => Except.ok false
    | _ => py_isinstance jdict (.prim k))
  | .anyT =>
    (match jdict with
    | .none => Except.ok false
    | _ => Except.ok true)
  | .recordOf _ fields =>
    (match jdict with
    | .none => Except.ok false
    | .dict kvs => jsonRecFieldsLoop fields kvs
    | _ => Except.ok false)               -- `if not is_dict(type(jdict)): return False`
  | .mapOf ve =>
    (match jdict with
    | .none => Except.ok false
    | .dict kvs => jsonMapPairsLoop kvs ve
    | _ => Except.error (EncErr.attributeError "items"))
  | .listOf e =>
    (match jdict with
    | .none => Except.ok false
    | .list xs => jsonElemsLoop e xs
    | .tuple xs => jsonElemsLoop e xs
    | .dict kvs => jsonElemsLoop e (kvs.map fun kv => PyVal.str kv.1)
    | _ => Except.error (EncErr.typeError "is not iterable"))
  | .tupleOf es =>
    (match jdict with
    | .none => Except.ok false
    | .list xs => jsonTupleCartLoop es xs
    | .tuple xs => jsonTupleCartLoop es xs
    | .dict kvs => jsonTupleCartLoop es (kvs.map fun kv => PyVal.str kv.1)
    | _ => Except.error (EncErr.typeError "is not iterable"))
  | .enumOf _ members =>
    (match jdict with
    | .none => Except.ok false
    | _ => Except.ok (members.any fun m => scalarEqPyVal m.2 jdict))
termination_by (sizeOf t, 0)

/-- The field loop of `json_is_type_match` on an annotated class: `jdict[nm]`
raises `KeyError` when a declared field is missing from the wire dict. -/
def jsonRecFieldsLoop (fields : List (String × Ty)) (kvs : List (String × PyVal)) :
    Except EncErr Bool :=
  match fields with
  | [] => Except.ok true
  | (nm, ty) :: rest =>
    match lookupKey nm kvs with
    | Option.none => Except.error (EncErr.keyError nm)
    | some v => do
      let b ← json_is_type_match ty v
      if b then jsonRecFieldsLoop rest kvs else Except.ok false
termination_by (sizeOf fields, 1)

/-- The pair loop of `json_is_type_match` on a typed dict.  The key check
`json_is_type_match(args[0], k)` has `args[0] = str` in this code base, so it
reduces to the first-order `isinstance` on the key (inlined here). -/
def jsonMapPairsLoop (kvs : List (String × PyVal)) (ve : Ty) : Except EncErr Bool :=
  match kvs with
  | [] => Except.ok true
  | (k, v) :: rest => do
    let kb ← py_isinstance (PyVal.str k) (Ty.prim PrimKind.str)
    if !kb then Except.ok false
    else do
      let b ← json_is_type_match ve v
      if b then jsonMapPairsLoop rest ve else Except.ok false
termination_by (sizeOf ve, sizeOf kvs)

/-- The element loop of `json_is_type_match` on a typed list (also the inner
loop of the tuple check). -/
def jsonElemsLoop (e : Ty) (xs : List PyVal) : Except EncErr Bool :=
  match xs with
  | [] => Except.ok true
  | x :: rest => do
    let b ← json_is_type_match e x
    if b then jsonElemsLoop e rest else Except.ok false
termination_by (sizeOf e, sizeOf xs)

/-- The tuple check of `json_is_type_match`: `for arg in args: for v in
jdict: ...` — every element is checked against every argument (not
positionally) and no arity check is made. -/
def jsonTupleCartLoop (es : List Ty) (xs : List PyVal) : Except EncErr Bool :=
  match es with
  | [] => Except.ok true
  | e :: rest => do
    let b ← jsonElemsLoop e xs
    if b then jsonTupleCartLoop rest xs else Except.ok false
termination_by (sizeOf es, sizeOf xs + 1)

/-- The variant loop of `json_is_type_match` on a (non-optional) union: the
first matching variant wins. -/
def jsonUnionLoop (vs : List Ty) (jdict : PyVal) : Except EncErr Bool :=
  match vs with
  | [] => Except.ok false
  | a :: rest => do
    let b ← json_is_type_match a jdict
    if b then Except.ok true else jsonUnionLoop rest jdict
termination_by (sizeOf vs, 0)

end

/-- An enum member's `.value` as a wire value. -/
def scalarToPyVal : Scalar → PyVal
  | .int n => .int n
  | .float p => .float p
  | .bool b => .bool b
  | .str s => .str s

/-- The top-level wrap test of `encode_any`:
`is_first_order(typ) or is_list(typ) or is_tuple(typ) or is_enum(typ)` on
`typ = type(ret)`.  A scalar or list result is wrapped in `{"value": ret}`.
A raw tuple result is NOT wrapped: `is_tuple` tests `isinstance(t, tuple)`
and `__origin__`, both false for the bare `tuple` class (unlike `is_list`,
which starts with `t == list`).  `None`, dicts and class instances are not
wrapped; the type of an enum member is its `Enum` subclass, so it is. -/
def wrapNeeded : PyVal → Bool
  | .int _ => true
  | .float _ => true
  | .bool _ => true
  | .str _ => true
  | .bytes _ => true
  | .list _ => true
  | .enumv _ _ _ => true
  | _ => false

/-- `normalize_union` permutes two entries, so it preserves size
(termination helper for the union arms). -/
@[simp] theorem sizeOf_normalize_union (args : List Ty) : sizeOf (normalize_union args) = sizeOf args := by
  rcases args with _ | ⟨a, _ | ⟨b, _ | ⟨c, rest⟩⟩⟩ <;> try rfl
  cases b <;> simp [normalize_union] <;> omega

mutual

/-- The inner `_encode_any` of `encode_any` (`encoding.py`).  Dispatch in
source order: `to_dict` (no modelled class defines one), `is_type` (type
values do not occur), first-order pass-through (no kind check), typed dicts
(`is_first_order` values are returned as-is), sets (not in the modelled
annotation language), typed lists, tuples (whose ELEMENTS go through the
outer, wrapping `encode_any`), `NoneType`, unions (normalized, variants tried
with `deep_isinstance`), enums (`obj.value`), `Any` (returned as-is), and
annotated classes (`obj.__dict__` indexed per annotation). -/
def encRaw (obj : PyVal) (t : Ty) : Except EncErr PyVal :=
  match t with
  | .prim _ => Except.ok obj
  | .mapOf ve =>
    if isFirstOrderTy ve then Except.ok obj
    else
      (match obj with
      | .dict kvs => do
        let ws ← encPairsLoop kvs ve
        Except.ok (PyVal.dict ws)
      | _ => Except.error (EncErr.attributeError "items"))
  | .listOf e =>
    if isFirstOrderTy e then Except.ok obj
    else
      (match obj with
      | .list xs => do
        let ws ← encElemsLoop xs e
        Except.ok (PyVal.list ws)
      | .tuple xs => do
        let ws ← encElemsLoop xs e
        Except.ok (PyVal.list ws)
      | _ => Except.error (EncErr.typeError "is not iterable"))
  | .tupleOf es =>
    (match es with
    | [] => Except.error (EncErr.valueError "Tuple must by typed")
    | e0 :: esRest =>
      match obj with
      | .tuple xs => do
        let ws ← encTupleElemsLoop xs (e0 :: esRest)
        Except.ok (PyVal.list ws)
      | .list xs => do
        let ws ← encTupleElemsLoop xs (e0 :: esRest)
        Except.ok (PyVal.list ws)
      | _ => Except.error (EncErr.typeError "is not iterable"))
  | .noneT => Except.ok PyVal.none
  | .unionOf vs => encUnionLoop obj (normalize_union vs)
  | .enumOf _ _ =>
    (match obj with
    | .enumv _ _ uv => Except.ok (scalarToPyVal uv)
    | _ => Except.error (EncErr.attributeError "value"))
  | .anyT => Except.ok obj
  | .recordOf _ fields =>
    (match obj with
    | .obj _ fvs => do
      let ws ← encFieldsLoop fields fvs
      Except.ok (PyVal.dict ws)
    | _ => Except.error (EncErr.attributeError "__dict__"))
termination_by (sizeOf t, 1)

/-- `encode_any` of `encoding.py`: run `_encode_any` and wrap a non-object
result in the `{"value": ...}` envelope when `wrapNeeded` holds for the
result's runtime type. -/
def encode_any (obj : PyVal) (t : Ty) : Except EncErr PyVal := do
  let ret ← encRaw obj t
  if wrapNeeded ret then Except.ok (PyVal.dict [("value", ret)]) else Except.ok ret
termination_by (sizeOf t, 2)

/-- The element loop of `_encode_any` on a typed list whose element type is
not first-order: each element is encoded with the inner `_encode_any`. -/
def encElemsLoop (xs : List PyVal) (e : Ty) : Except EncErr (List PyVal) :=
  match xs with
  | [] => Except.ok []
  | x :: rest => do
    let w ← encRaw x e
    let ws ← encElemsLoop rest e
    Except.ok (w :: ws)
termination_by (sizeOf e, sizeOf xs + 2)

/-- The pair loop of `_encode_any` on a typed dict whose value type is not
first-order. -/
def encPairsLoop (kvs : List (String × PyVal)) (ve : Ty) :
    Except EncErr (List (String × PyVal)) :=
  match kvs with
  | [] => Except.ok []
  | (k, v) :: rest => do
    let w ← encRaw v ve
    let ws ← encPairsLoop rest ve
    Except.ok ((k, w) :: ws)
termination_by (sizeOf ve, sizeOf kvs + 2)

/-- The tuple loop of `_encode_any`: `for i, v in enumerate(obj): encode_any(v,
args[i])` — elements go through the OUTER `encode_any` (and so get their own
envelopes); `args[i]` raises `IndexError` when the tuple is longer than its
annotation; a shorter tuple just encodes fewer elements. -/
def encTupleElemsLoop (xs : List PyVal) (es : List Ty) : Except EncErr (List PyVal) :=
  match xs with
  | [] => Except.ok []
  | x :: rest =>
    match es with
    | [] => Except.error EncErr.indexError
    | e :: es' => do
      let w ← encode_any x e
      let ws ← encTupleElemsLoop rest es'
      Except.ok (w :: ws)
termination_by (sizeOf es, sizeOf xs + 2)

/-- The union loop of `_encode_any`: try each (normalized) variant with
`deep_isinstance`, encode with the first match, raise `ValueError` when none
matches. -/
def encUnionLoop (obj : PyVal) (args : List Ty) : Except EncErr PyVal :=
  match args with
  | [] => Except.error (EncErr.valueError "obj is not of any union types")
  | a :: rest => do
    let b ← deep_isinstance obj a
    if b then encRaw obj a else encUnionLoop obj rest
termination_by (sizeOf args, 2)

/-- The field loop of `_encode_any` on an annotated class: iterate the
annotations, indexing `obj.__dict__` (raising `KeyError` for an unset field);
fields not covered by an annotation are dropped. -/
def encFieldsLoop (fields : List (String × Ty)) (fvs : List (String × PyVal)) :
    Except EncErr (List (String × PyVal)) :=
  match fields with
  | [] => Except.ok []
  | (nm, ty) :: rest =>
    match lookupKey nm fvs with
    | Option.none => Except.error (EncErr.keyError nm)
    | some x => do
      let w ← encRaw x ty
      let ws ← encFieldsLoop rest fvs
      Except.ok ((nm, w) :: ws)
termination_by (sizeOf fields, 2)

end

/-- The envelope unwrap at the top of `decode_any`:
`try: if "value" in jdict: jdict = jdict["value"] except: pass`.
Only a dict can be changed: `"value" in d` is a key test for dicts; for lists
and strings it is a membership/substring test whose subsequent indexing
`jdict["value"]` raises `TypeError` (swallowed by the bare `except`), and for
other values the `in` itself raises (also swallowed). -/
def unwrap_value (jdict : PyVal) : PyVal :=
  match jdict with
  | .dict kvs =>
    (match lookupKey "value" kvs with
    | some v => v
    | Option.none => .dict kvs)
  | _ => jdict

mutual

/-- `decode_any` of `encoding.py`: unwrap the `{"value": ...}` envelope, then
dispatch on the target annotation. -/
def decode_any (jdict : PyVal) (t : Ty) : Except EncErr PyVal :=
  decodeCore (unwrap_value jdict) t
termination_by (sizeOf t, 2)

/-- The dispatch of `decode_any` after the envelope unwrap, in source order:
`is_type` (type values do not occur), first-order pass-through, `from_dict`
(no modelled class defines one), `NoneType`, typed dicts (first-order values
returned as-is), sets (absent from the annotation language), typed lists,
tuples (arity-checked via `len`, then positional — wire tuples are lists;
Python iteration over non-sequence wire values is not modelled), unions
(normalized, matched with `json_is_type_match` against the raw wire value),
`Any` (returned as-is),
enums (`t(jdict)`, a lookup by member value), and annotated classes (fields
set from the wire dict, `annots[k]` raising `KeyError` for an unknown key). -/
def decodeCore (jdict : PyVal) (t : Ty) : Except EncErr PyVal :=
  match t with
  | .prim _ => Except.ok jdict
  | .noneT =>
    (match jdict with
    | .none => Except.ok PyVal.none
    | _ => Except.error (EncErr.valueError "Expected None"))
  | .mapOf ve =>
    if isFirstOrderTy ve then Except.ok jdict
    else
      (match jdict with
      | .dict kvs => do
        let ws ← decPairsLoop kvs ve
        Except.ok (PyVal.dict ws)
      | _ => Except.error (EncErr.attributeError "items"))
  | .listOf e =>
    if isFirstOrderTy e then Except.ok jdict
    else
      (match jdict with
      | .list xs => do
        let ws ← decElemsLoop xs e
        Except.ok (PyVal.list ws)
      | .tuple xs => do
        let ws ← decElemsLoop xs e
        Except.ok (PyVal.list ws)
      | _ => Except.error (EncErr.typeError "is not iterable"))
  | .tupleOf es =>
    (match jdict with
    | .list xs =>
      if xs.length ≠ es.length then
        Except.error (EncErr.valueError "Type given does not have enough args for object")
      else do
        let ws ← decTupleElemsLoop xs es
        Except.ok (PyVal.tuple ws)
    | .tuple xs =>
      if xs.length ≠ es.length then
        Except.error (EncErr.valueError "Type given does not have enough args for object")
      else do
        let ws ← decTupleElemsLoop xs es
        Except.ok (PyVal.tuple ws)
    | _ => Except.error (EncErr.typeError "has no len"))
  | .unionOf vs => decUnionLoop jdict (normalize_union vs)
  | .anyT => Except.ok jdict
  | .enumOf ename members =>
    (match members.find? fun m => scalarEqPyVal m.2 jdict with
    | some m => Except.ok (PyVal.enumv ename m.1 m.2)
    | Option.none => Except.error (EncErr.valueError "is not a valid enum"))
  | .recordOf cname fields =>
    (match jdict with
    | .dict kvs => do
      let ws ← decRecFieldsLoop kvs fields
      Except.ok (PyVal.obj cname ws)
    | _ => Except.error (EncErr.attributeError "items"))
termination_by (sizeOf t, 1)

/-- The element loop of `decode_any` on a typed list whose element type is
not first-order: elements go back through `decode_any` (envelope unwrap
included). -/
def decElemsLoop (xs : List PyVal) (e : Ty) : Except EncErr (List PyVal) :=
  match xs with
  | [] => Except.ok []
  | x :: rest => do
    let w ← decode_any x e
    let ws ← decElemsLoop rest e
    Except.ok (w :: ws)
termination_by (sizeOf e, sizeOf xs + 3)

/-- The pair loop of `decode_any` on a typed dict whose value type is not
first-order. -/
def decPairsLoop (kvs : List (String × PyVal)) (ve : Ty) :
    Except EncErr (List (String × PyVal)) :=
  match kvs with
  | [] => Except.ok []
  | (k, v) :: rest => do
    let w ← decode_any v ve
    let ws ← decPairsLoop rest ve
    Except.ok ((k, w) :: ws)
termination_by (sizeOf ve, sizeOf kvs + 3)

/-- The positional tuple loop of `decode_any` (entered only after the arity
check). -/
def decTupleElemsLoop (xs : List PyVal) (es : List Ty) : Except EncErr (List PyVal) :=
  match xs with
  | [] => Except.ok []
  | x :: rest =>
    match es with
    | [] => Except.error EncErr.indexError
    | e :: es' => do
      let w ← decode_any x e
      let ws ← decTupleElemsLoop rest es'
      Except.ok (w :: ws)
termination_by (sizeOf es, sizeOf xs + 3)

/-- The union loop of `decode_any`: pick the first (normalized) variant whose
shape matches the raw wire value, raise `ValueError` when none does. -/
def decUnionLoop (jdict : PyVal) (args : List Ty) : Except EncErr PyVal :=
  match args with
  | [] => Except.error (EncErr.valueError "No type matched JSON")
  | a :: rest => do
    let b ← json_is_type_match a jdict
    if b then decode_any jdict a else decUnionLoop jdict rest
termination_by (sizeOf args, 2)

/-- The field loop of `decode_any` on an annotated class: iterate the wire
dict, decoding each value at `annots[k]` (a `KeyError` when the wire carries
an unknown key) and `setattr`-ing it on a fresh instance. -/
def decRecFieldsLoop (kvs : List (String × PyVal)) (fields : List (String × Ty)) :
    Except EncErr (List (String × PyVal)) :=
  match kvs with
  | [] => Except.ok []
  | (k, v) :: rest =>
    match h : lookupKey k fields with
    | Option.none => Except.error (EncErr.keyError k)
    | some ty => do
      let w ← decode_any v ty
      let ws ← decRecFieldsLoop rest fields
      Except.ok ((k, w) :: ws)
termination_by (sizeOf fields, sizeOf kvs + 3)
decreasing_by
  all_goals first
    | (have a1 := sizeOf_of_lookupKey h; apply Prod.Lex.left; omega)
    | (apply Prod.Lex.right; simp; omega)
    | (apply Prod.Lex.right; simp)
    | (apply Prod.Lex.right; omega)
    | (apply Prod.Lex.left; simp; omega)

end

/-- `Optional[int]` as Python's `typing` produces it: `Union[int, NoneType]`
with the null variant declared last. -/
def optionalInt : Ty := Ty.unionOf [Ty.prim PrimKind.int, Ty.noneT]

/-- Whether a wire value is a JSON object (a `Rec`). -/
def isRec : PyVal → Bool
  | .dict _ => true
  | _ => false

/-- C9: encoding `None` at `Optional[int]` produces the wire value `Null`,
and decoding `Null` against the same descriptor returns `None` — the null
variant of the optional union accepts `Null` on decode, so no
`NoUnionVariantMatched` (`ValueError`) is raised. -/
theorem C9_optional_none_roundtrip :
    encode_any PyVal.none optionalInt = Except.ok PyVal.none
    ∧ decode_any PyVal.none optionalInt = Except.ok PyVal.none := by
  constructor
  · simp [encode_any, encRaw, encUnionLoop, normalize_union, deep_isinstance, wrapNeeded,
      optionalInt]
  · simp [decode_any, decodeCore, decUnionLoop, normalize_union, unwrap_value,
      json_is_type_match, optionalInt]

/-- C5: the encoding of `None` — both at `NoneType` (as asserted by the
repo's own `test_none`) and at `Optional[int]` — is the bare `Null`, not the
claimed `Rec {"value": Null}` envelope: `NoneType` is not first-order, not a
list, not a tuple and not an enum, so the wrap test fails and a non-object
payload escapes. -/
theorem C5_none_payload_not_wrapped :
    encode_any PyVal.none Ty.noneT = Except.ok PyVal.none
    ∧ encode_any PyVal.none optionalInt = Except.ok PyVal.none
    ∧ isRec PyVal.none = false := by
  refine ⟨?_, ?_, rfl⟩
  · simp [encode_any, encRaw, wrapNeeded]
  · simp [encode_any, encRaw, encUnionLoop, normalize_union, deep_isinstance, wrapNeeded,
      optionalInt]

/-- C6 counterexample: the shared optional-normalization places the null
variant FIRST, not last — for declared `Optional[int]` (`[int, NoneType]`)
the normalized trial order is `[NoneType, int]`, whose head is the null
variant and whose last element is not. -/
theorem C6_null_variant_normalized_first :
    normalize_union [Ty.prim PrimKind.int, Ty.noneT] = [Ty.noneT, Ty.prim PrimKind.int]
    ∧ (normalize_union [Ty.prim PrimKind.int, Ty.noneT]).getLast? = some (Ty.prim PrimKind.int) := by
  exact ⟨rfl, rfl⟩

/-- C6 amended: both codec directions normalize a declared `Optional` union
`[X, NoneType]` with the same rule — to `[NoneType, X]`, null variant FIRST —
and a present value still selects the non-null variant, because the null
variant matches only `None`/`Null`: with it the union behaves exactly like
the union `[X]` alone. -/
theorem C6_normalization_null_first_same_rule (X : Ty) (v w : PyVal)
    (hv : v ≠ PyVal.none) (hw : unwrap_value w ≠ PyVal.none) :
    normalize_union [X, Ty.noneT] = [Ty.noneT, X]
    ∧ encode_any v (Ty.unionOf [X, Ty.noneT]) = encode_any v (Ty.unionOf [X])
    ∧ decode_any w (Ty.unionOf [X, Ty.noneT]) = decode_any w (Ty.unionOf [X]) := by
  have hm : (match v with | PyVal.none => true | _ => false) = false := by
    cases v <;> first | rfl | exact absurd rfl hv
  have hm2 : (match unwrap_value w with | PyVal.none => true | _ => false) = false := by
    cases hu : unwrap_value w <;> first | rfl | exact absurd hu hw
  refine ⟨rfl, ?_, ?_⟩
  · simp [encode_any, encRaw, encUnionLoop, normalize_union, deep_isinstance, hm]
  · simp [decode_any, decodeCore, decUnionLoop, normalize_union, json_is_type_match, hm2]

/-- C6 witness: the amended statement at `X = int`, value `5`. -/
theorem C6_normalization_witness :
    normalize_union [Ty.prim PrimKind.int, Ty.noneT] = [Ty.noneT, Ty.prim PrimKind.int]
    ∧ encode_any (PyVal.int 5) (Ty.unionOf [Ty.prim PrimKind.int, Ty.noneT])
        = encode_any (PyVal.int 5) (Ty.unionOf [Ty.prim PrimKind.int])
    ∧ decode_any (PyVal.int 5) (Ty.unionOf [Ty.prim PrimKind.int, Ty.noneT])
        = decode_any (PyVal.int 5) (Ty.unionOf [Ty.prim PrimKind.int]) :=
  C6_normalization_null_first_same_rule (Ty.prim PrimKind.int) (PyVal.int 5) (PyVal.int 5)
    (by simp) (by simp [unwrap_value])

/-- Positional element matching (helper for the spec-side tuple rule). -/
def jsonZipMatch : List Ty → List PyVal → Except EncErr Bool
  | [], _ => Except.ok true
  | _ :: _, [] => Except.ok true
  | e :: es, x :: xs => do
    let b ← json_is_type_match e x
    if b then jsonZipMatch es xs else Except.ok false

/-- The tuple rule of the Structural Matcher as the spec words it (refinement
reference, written from the spec, not from the source): `v` is a `Seq` of the
same length as `es` and element `i` matches `es[i]`. -/
def tuple_match_spec (es : List Ty) (v : PyVal) : Except EncErr Bool :=
  match v with
  | .list xs =>
    if xs.length = es.length then jsonZipMatch es xs else Except.ok false
  | _ => Except.ok false

/-- C8 counterexample: for `TupleOf [int, str]` and the wire value
`Seq [5, "a"]` — equal length, every element matching its positional
descriptor, so the claimed rule says `true` — the matcher returns `false`,
because its double loop checks every element against every descriptor
(`5` is also checked against `str`). -/
theorem C8_positional_tuple_match_refuted :
    json_is_type_match (Ty.tupleOf [Ty.prim PrimKind.int, Ty.prim PrimKind.str])
      (PyVal.list [PyVal.int 5, PyVal.str "a"]) = Except.ok false
    ∧ tuple_match_spec [Ty.prim PrimKind.int, Ty.prim PrimKind.str]
      (PyVal.list [PyVal.int 5, PyVal.str "a"]) = Except.ok true := by
  constructor
  · simp [json_is_type_match, jsonTupleCartLoop, jsonElemsLoop, py_isinstance]
  · simp [tuple_match_spec, jsonZipMatch, json_is_type_match, py_isinstance]

/-- `jsonElemsLoop` succeeds with `true` exactly when every element matches. -/
theorem jsonElemsLoop_true_iff (e : Ty) (xs : List PyVal) :
    jsonElemsLoop e xs = Except.ok true
      ↔ ∀ x ∈ xs, json_is_type_match e x = Except.ok true := by
  induction xs with
  | nil => simp [jsonElemsLoop]
  | cons x rest ih =>
    rw [jsonElemsLoop]
    cases hj : json_is_type_match e x with
    | error err =>
      refine iff_of_false (by simp) ?_
      intro hall
      have := hall x (List.mem_cons_self x rest)
      rw [hj] at this
      cases this
    | ok b =>
      cases b
      · refine iff_of_false (by simp) ?_
        intro hall
        have := hall x (List.mem_cons_self x rest)
        rw [hj] at this
        cases this
      · simp [hj, ih, List.forall_mem_cons]

/-- `jsonTupleCartLoop` succeeds with `true` exactly when every element
matches every descriptor. -/
theorem jsonTupleCartLoop_true_iff (es : List Ty) (xs : List PyVal) :
    jsonTupleCartLoop es xs = Except.ok true
      ↔ ∀ e ∈ es, ∀ x ∈ xs, json_is_type_match e x = Except.ok true := by
  induction es with
  | nil => simp [jsonTupleCartLoop]
  | cons e rest ih =>
    rw [jsonTupleCartLoop]
    cases hj : jsonElemsLoop e xs with
    | error err =>
      refine iff_of_false (by simp) ?_
      intro hall
      have := (jsonElemsLoop_true_iff e xs).2 (hall e (List.mem_cons_self e rest))
      rw [hj] at this
      cases this
    | ok b =>
      cases b
      · refine iff_of_false (by simp) ?_
        intro hall
        have := (jsonElemsLoop_true_iff e xs).2 (hall e (List.mem_cons_self e rest))
        rw [hj] at this
        cases this
      · have he := (jsonElemsLoop_true_iff e xs).1 hj
        simp [hj, ih, List.forall_mem_cons, he]
        intro _
        exact he

/-- C8 amended: on a `Seq`, the matcher's tuple rule is the cartesian one —
`matches(v, TupleOf es)` is true exactly when EVERY element of `v` matches
EVERY descriptor in `es`; there is no arity check and no positional pairing
(the positional rule of the claim is refuted by `tuple_match_spec` above). -/
theorem C8_tuple_match_cartesian (es : List Ty) (xs : List PyVal) :
    json_is_type_match (Ty.tupleOf es) (PyVal.list xs) = Except.ok true
      ↔ ∀ e ∈ es, ∀ x ∈ xs, json_is_type_match e x = Except.ok true := by
  rw [json_is_type_match]
  exact jsonTupleCartLoop_true_iff es xs

/-- C10 counterexample: a union that DOES contain a `ListOf` variant with a
non-`Any` element type (`List[int]`), yet encoding the empty list succeeds —
the earlier `List[Any]` variant matches `[]` (its `Any` guard fires before
the `obj[0]` access), so no `IndexError` is reached. -/
theorem C10_empty_list_succeeds_via_any_variant :
    Ty.listOf (Ty.prim PrimKind.int) ∈ [Ty.listOf Ty.anyT, Ty.listOf (Ty.prim PrimKind.int)]
    ∧ encode_any (PyVal.list []) (Ty.unionOf [Ty.listOf Ty.anyT, Ty.listOf (Ty.prim PrimKind.int)])
        = Except.ok (PyVal.dict [("value", PyVal.list [])]) := by
  constructor
  · simp
  · simp [encode_any, encRaw, encUnionLoop, normalize_union, deep_isinstance,
      isFirstOrderTy, encElemsLoop, wrapNeeded]

/-- `deep_isinstance` on the empty list at a `ListOf` variant with a
non-`Any` element type reaches the unguarded `obj[0]` and raises
`IndexError`. -/
theorem deep_isinstance_empty_list_indexerror (e : Ty) (he : e ≠ Ty.anyT) :
    deep_isinstance (PyVal.list []) (Ty.listOf e) = Except.error EncErr.indexError := by
  cases e <;> first | rfl | exact absurd rfl he

/-- C10 amended: when the normalized variant-trial order reaches a `ListOf`
variant with a non-`Any` element type before any variant accepts the empty
list (every earlier variant answers `false`), encoding `[]` raises
`IndexError` — the variant check inspects only `obj[0]`.  The unqualified
claim is refuted by `C10_empty_list_succeeds_via_any_variant`: an earlier
`List[Any]` variant can accept `[]` first. -/
theorem C10_union_empty_list_indexerror (vs pre rest : List Ty) (e : Ty)
    (h1 : normalize_union vs = pre ++ Ty.listOf e :: rest)
    (h2 : e ≠ Ty.anyT)
    (h3 : ∀ t2 ∈ pre, deep_isinstance (PyVal.list []) t2 = Except.ok false) :
    encode_any (PyVal.list []) (Ty.unionOf vs) = Except.error EncErr.indexError := by
  have key : ∀ pre2 : List Ty, (∀ t2 ∈ pre2, deep_isinstance (PyVal.list []) t2 = Except.ok false) →
      encUnionLoop (PyVal.list []) (pre2 ++ Ty.listOf e :: rest)
        = Except.error EncErr.indexError := by
    intro pre2
    induction pre2 with
    | nil =>
      intro _
      rw [List.nil_append, encUnionLoop, deep_isinstance_empty_list_indexerror e h2]
      rfl
    | cons t2 pre2' ih =>
      intro hall
      rw [List.cons_append, encUnionLoop, hall t2 (List.mem_cons_self t2 pre2')]
      simpa using ih fun t3 ht3 => hall t3 (List.mem_cons_of_mem t2 ht3)
  rw [encode_any, encRaw, h1, key pre h3]
  rfl

/-- C10 witness: `Union[str, List[int]]` — the `str` variant rejects `[]`,
the `List[int]` variant then raises `IndexError`. -/
theorem C10_union_empty_list_indexerror_witness :
    normalize_union [Ty.prim PrimKind.str, Ty.listOf (Ty.prim PrimKind.int)]
      = [Ty.prim PrimKind.str] ++ Ty.listOf (Ty.prim PrimKind.int) :: []
    ∧ Ty.prim PrimKind.int ≠ Ty.anyT
    ∧ (∀ t2 ∈ [Ty.prim PrimKind.str], deep_isinstance (PyVal.list []) t2 = Except.ok false)
    ∧ encode_any (PyVal.list [])
        (Ty.unionOf [Ty.prim PrimKind.str, Ty.listOf (Ty.prim PrimKind.int)])
        = Except.error EncErr.indexError :=
  ⟨rfl, by simp, by simp [deep_isinstance, py_isinstance],
    C10_union_empty_list_indexerror
      [Ty.prim PrimKind.str, Ty.listOf (Ty.prim PrimKind.int)]
      [Ty.prim PrimKind.str] [] (Ty.prim PrimKind.int) rfl (by simp)
      (by simp [deep_isinstance, py_isinstance])⟩

/-- Stable insertion into a sorted list (used to model Python's stable
`sorted`). -/
def insertSortedBy {α : Type} (le : α → α → Bool) (x : α) : List α → List α
  | [] => [x]
  | y :: ys => if le y x then y :: insertSortedBy le x ys else x :: y :: ys

/-- Stable insertion sort, modelling Python's `sorted`. -/
def sortByBool {α : Type} (le : α → α → Bool) : List α → List α
  | [] => []
  | x :: xs => insertSortedBy le x (sortByBool le xs)

/-- Inserting preserves total size (termination helper). -/
@[simp] theorem sizeOf_insertSortedBy {α : Type} [SizeOf α] (le : α → α → Bool) (x : α)
    (l : List α) : sizeOf (insertSortedBy le x l) = 1 + sizeOf x + sizeOf l := by
  induction l with
  | nil => simp [insertSortedBy]
  | cons y ys ih =>
    rw [insertSortedBy]
    split <;> (simp [ih]; try omega)

/-- Sorting preserves total size (termination helper). -/
@[simp] theorem sizeOf_sortByBool {α : Type} [SizeOf α] (le : α → α → Bool) (l : List α) :
    sizeOf (sortByBool le l) = sizeOf l := by
  induction l with
  | nil => rfl
  | cons x xs ih => rw [sortByBool]; simp [ih]; try omega

/-- Python `sorted` on `dict.items()` pairs: compares keys (comparing the
values — classes — would raise `TypeError`, so the keys are unique in any
dict this is applied to). -/
def sortPairsByKey {α : Type} (l : List (String × α)) : List (String × α) :=
  sortByBool (fun p q => decide (p.1 ≤ q.1)) l

/-- The schema dictionary with no keys (`{}`). -/
def emptySchema : Schema :=
  Schema.mk Option.none Option.none Option.none Option.none Option.none Option.none
    Option.none Option.none Option.none Option.none

/-- `type_map` of `schema.py`. -/
def typeMapSchema : PrimKind → Schema
  | .int => Schema.mk (some "integer") Option.none Option.none Option.none Option.none
      Option.none Option.none Option.none Option.none Option.none
  | .float => Schema.mk (some "number") (some "float") Option.none Option.none Option.none
      Option.none Option.none Option.none Option.none Option.none
  | .bool => Schema.mk (some "boolean") Option.none Option.none Option.none Option.none
      Option.none Option.none Option.none Option.none Option.none
  | .str => Schema.mk (some "string") Option.none Option.none Option.none Option.none
      Option.none Option.none Option.none Option.none Option.none
  | .bytes => Schema.mk (some "string") (some "byte") Option.none Option.none Option.none
      Option.none Option.none Option.none Option.none Option.none

/-- `out["default"] = default` on a first-order schema. -/
def setDefault (s : Schema) (d : Scalar) : Schema :=
  match s with
  | .mk t f _ p r a i pi o e => .mk t f (some d) p r a i pi o e

/-- Python truthiness of a scalar (`if default:`): `None` is handled by the
caller; `0`, `0.0`, `False` and `""` are falsy. -/
def scalarTruthy : Scalar → Bool
  | .int n => decide (n ≠ 0)
  | .float p => decide (p ≠ 0)
  | .bool b => b
  | .str s => decide (s ≠ "")

mutual

/-- `build_json_schema` of `src/modelos/object/schema.py`.  Dispatch in
source order: `None`/`NoneType` → `{}`; first-order → `type_map` entry plus a
`default` key when the default is truthy; typed dicts (string keys only in
this code base); tuples → `prefixItems`; `is_optional` → the schema of
`args[0]` (the optionality is erased); typed lists → `items`; other unions →
`sorted(args)`, which compares classes and raises `TypeError` as soon as two
variants are compared; enums → members sorted by label, `enum` of their
values; `Any` → `{"type": "AnyType"}`; annotated classes → the record branch
(fields sorted, each built with NO default, `required` collecting every field
whose built schema lacks a `default` key — see `buildRecordLoop`). -/
def build_json_schema (obj : Ty) (default : Option Scalar) (sort : Bool) :
    Except EncErr Schema :=
  match obj with
  | .noneT => Except.ok emptySchema
  | .prim k =>
    (match default with
    | some d =>
      if scalarTruthy d then Except.ok (setDefault (typeMapSchema k) d)
      else Except.ok (typeMapSchema k)
    | Option.none => Except.ok (typeMapSchema k))
  | .mapOf ve => do
    let val ← build_json_schema ve Option.none true
    Except.ok (Schema.mk (some "object") Option.none Option.none Option.none Option.none
      (some val) Option.none Option.none Option.none Option.none)
  | .tupleOf es => do
    let items ← buildSchemaList es
    Except.ok (Schema.mk (some "array") Option.none Option.none Option.none Option.none
      Option.none Option.none (some items) Option.none Option.none)
  | .unionOf vs =>
    if is_optionalTy (.unionOf vs) then
      -- `return build_json_schema(args[0], default=default)`
      (match vs with
      | v0 :: _ => build_json_schema v0 default sort
      | [] => Except.error EncErr.indexError)
    else
      -- `if sort: args = sorted(args)`: comparing two classes with `<`
      -- raises TypeError; a 0/1-element sort never compares.
      if sort && decide (vs.length ≥ 2) then
        Except.error (EncErr.typeError "not supported between instances of type and type")
      else do
        let items ← buildSchemaList vs
        Except.ok (Schema.mk Option.none Option.none Option.none Option.none Option.none
          Option.none Option.none Option.none (some items) Option.none)
  | .listOf e => do
    let typ ← build_json_schema e Option.none true
    Except.ok (Schema.mk (some "array") Option.none Option.none Option.none Option.none
      Option.none (some typ) Option.none Option.none Option.none)
  | .enumOf _ members =>
    let member_map := if sort then sortPairsByKey members else members
    Except.ok (Schema.mk (some "string") Option.none Option.none Option.none Option.none
      Option.none Option.none Option.none Option.none (some (member_map.map (·.2))))
  | .anyT =>
    Except.ok (Schema.mk (some "AnyType") Option.none Option.none Option.none Option.none
      Option.none Option.none Option.none Option.none Option.none)
  | .recordOf _ fields => do
    let annots := if sort then sortPairsByKey fields else fields
    let pr ← buildRecordLoop annots
    let req : Option (List String) :=
      if pr.2.isEmpty then Option.none
      else some (if sort then sortByBool (fun a b => decide (a ≤ b)) pr.2 else pr.2)
    Except.ok (Schema.mk (some "object") Option.none Option.none (some pr.1) req Option.none
      Option.none Option.none Option.none Option.none)
termination_by (sizeOf obj, 0)
decreasing_by
  all_goals first
    | decreasing_tactic
    | (apply Prod.Lex.left
       cases sort <;> simp [sortPairsByKey] <;> omega)

/-- `[build_json_schema(arg) for arg in args]` (tuple, union). -/
def buildSchemaList (ts : List Ty) : Except EncErr (List Schema) :=
  match ts with
  | [] => Except.ok []
  | t :: rest => do
    let s ← build_json_schema t Option.none true
    let ss ← buildSchemaList rest
    Except.ok (s :: ss)
termination_by (sizeOf ts, 1)

/-- The field loop of the record branch of `build_json_schema`:
`prop = build_json_schema(typ)` (no default, sort defaulted to `True`);
`if "default" in prop:` then `prop[default]` indexes the dict with the VALUE
`None` — a `KeyError` — but the key is never present since no default was
passed; otherwise the field name joins `opts` (the future `required` list)
and the prop joins `props`. -/
def buildRecordLoop (annots : List (String × Ty)) :
    Except EncErr (List (String × Schema) × List String) :=
  match annots with
  | [] => Except.ok ([], [])
  | (nm, typ) :: rest => do
    let prop ← build_json_schema typ Option.none true
    match prop.default? with
    | some _ => Except.error (EncErr.keyError "None")
    | Option.none => do
      let pr ← buildRecordLoop rest
      Except.ok ((nm, prop) :: pr.1, nm :: pr.2)
termination_by (sizeOf annots, 1)

end

/-- Membership is preserved by sorted insertion. -/
theorem mem_insertSortedBy {α : Type} (le : α → α → Bool) (x y : α) (l : List α) :
    y ∈ insertSortedBy le x l ↔ y = x ∨ y ∈ l := by
  induction l with
  | nil => simp [insertSortedBy]
  | cons z zs ih =>
    rw [insertSortedBy]
    split
    · simp [ih]
      tauto
    · simp
      try tauto

/-- Membership is preserved by the modelled `sorted`. -/
theorem mem_sortByBool {α : Type} (le : α → α → Bool) (y : α) (l : List α) :
    y ∈ sortByBool le l ↔ y ∈ l := by
  induction l with
  | nil => simp [sortByBool]
  | cons x xs ih =>
    rw [sortByBool, mem_insertSortedBy]
    simp [ih]

/-- A successful `buildRecordLoop` puts EVERY field name into `opts` (the
future `required` list): the only path that skips a name requires the built
field schema to carry a `default` key, and then the loop raises instead. -/
theorem buildRecordLoop_names (annots : List (String × Ty))
    (pr : List (String × Schema) × List String)
    (h : buildRecordLoop annots = Except.ok pr) : pr.2 = annots.map Prod.fst := by
  induction annots generalizing pr with
  | nil =>
    rw [buildRecordLoop] at h
    injection h with h
    subst h
    rfl
  | cons hd rest ih =>
    rcases hd with ⟨nm, typ⟩
    rw [buildRecordLoop] at h
    cases hb : build_json_schema typ Option.none true with
    | error e => rw [hb] at h; cases h
    | ok prop =>
      rw [hb] at h
      simp only [okBind] at h
      cases hd : prop.default? with
      | some d => rw [hd] at h; cases h
      | none =>
        rw [hd] at h
        cases hrest : buildRecordLoop rest with
        | error e => rw [hrest] at h; cases h
        | ok pr' =>
          rw [hrest] at h
          simp only [okBind, pureExceptEq] at h
          injection h with h
          subst h
          simp [ih pr' hrest]

/-- C7 amended: in the record branch of `build_json_schema`, a field is
placed in `required` iff its built schema lacks a `default` key; since field
schemas are built with no default, EVERY declared field — `Optional` or not —
ends up in the `required` list. -/
theorem C7_every_field_required (cname : String) (fields : List (String × Ty)) (s : Schema)
    (h : build_json_schema (Ty.recordOf cname fields) Option.none true = Except.ok s) :
    ∀ p ∈ fields, ∃ req, s.required? = some req ∧ p.1 ∈ req := by
  intro p hp
  rw [build_json_schema] at h
  cases hr : buildRecordLoop (if true then sortPairsByKey fields else fields) with
  | error e => rw [hr] at h; cases h
  | ok pr =>
    rw [hr] at h
    simp only [okBind, pureExceptEq] at h
    have hnames := buildRecordLoop_names _ pr hr
    simp only [if_pos rfl] at hnames hr
    have hpmem : p.1 ∈ pr.2 := by
      rw [hnames]
      simp only [List.mem_map]
      exact ⟨p, by simpa [sortPairsByKey, mem_sortByBool] using hp, rfl⟩
    have hne : pr.2.isEmpty = false := by
      cases hpr2 : pr.2 with
      | nil => rw [hpr2] at hpmem; cases hpmem
      | cons a l => rfl
    injection h with h
    subst h
    refine ⟨sortByBool (fun a b => decide (a ≤ b)) pr.2, ?_, ?_⟩
    · simp [Schema.required?, hne]
    · rw [mem_sortByBool]
      exact hpmem

/-- C7 counterexample: for the record `{a : Optional[int]}` the built schema
lists the `Optional` field `a` in `required`, refuting "no Optional field
appears in required". -/
theorem C7_optional_field_in_required :
    (build_json_schema (Ty.recordOf "R" [("a", optionalInt)]) Option.none true).map
      Schema.required? = Except.ok (some ["a"])
    ∧ is_optionalTy optionalInt = true := by
  constructor
  · simp [build_json_schema, buildRecordLoop, sortPairsByKey, sortByBool, insertSortedBy,
      optionalInt, typeMapSchema, Schema.default?, Schema.required?, Except.map, is_optionalTy]
  · rfl

/-- The schema built for the C7 witness record `{a : Optional[int]}`. -/
def schemaC7built : Schema :=
  Schema.mk (some "object") Option.none Option.none (some [("a", typeMapSchema PrimKind.int)])
    (some ["a"]) Option.none Option.none Option.none Option.none Option.none

/-- C7 witness: the amended statement applied to the record
`{a : Optional[int]}`. -/
theorem C7_every_field_required_witness :
    ∃ req, schemaC7built.required? = some req ∧ "a" ∈ req :=
  C7_every_field_required "R" [("a", optionalInt)] schemaC7built
    (by simp [build_json_schema, buildRecordLoop, sortPairsByKey, sortByBool, insertSortedBy,
      optionalInt, typeMapSchema, Schema.default?, schemaC7built, is_optionalTy])
    ("a", optionalInt) (by simp)

mutual

/-- Formalization of "runtime value `v` is valid for descriptor `t`": the
value's shape agrees with the annotation (primitive kinds strict, tuples of
matching arity, records carrying exactly the declared fields in declaration
order with the declaring class's name, enum members whose value looks up to
exactly themselves). -/
def valid (t : Ty) (v : PyVal) : Bool :=
  match t, v with
  | .prim .int, .int _ => true
  | .prim .float, .float _ => true
  | .prim .bool, .bool _ => true
  | .prim .str, .str _ => true
  | .prim .bytes, .bytes _ => true
  | .noneT, .none => true
  | .listOf e, .list xs => validElems e xs
  | .mapOf ve, .dict kvs => validPairs ve kvs
  | .tupleOf es, .tuple xs => validTupleElems es xs
  | .recordOf cname fields, .obj cn fvs => cn == cname && validFields fields fvs
  | .enumOf ename members, .enumv en lbl uv =>
    en == ename
      && decide ((members.find? fun m => decide (m.2 = uv)) = some (lbl, uv))
  | _, _ => false
termination_by (sizeOf t, 0)

/-- Every list element is valid for the element descriptor. -/
def validElems (e : Ty) (xs : List PyVal) : Bool :=
  match xs with
  | [] => true
  | x :: rest => valid e x && validElems e rest
termination_by (sizeOf e, sizeOf xs + 1)

/-- Every dict value is valid for the value descriptor. -/
def validPairs (ve : Ty) (kvs : List (String × PyVal)) : Bool :=
  match kvs with
  | [] => true
  | (_, v) :: rest => valid ve v && validPairs ve rest
termination_by (sizeOf ve, sizeOf kvs + 1)

/-- Tuple elements are positionally valid and the arity matches. -/
def validTupleElems (es : List Ty) (xs : List PyVal) : Bool :=
  match es, xs with
  | [], [] => true
  | e :: es', x :: xs' => valid e x && validTupleElems es' xs'
  | _, _ => false
termination_by (sizeOf es, sizeOf xs + 1)

/-- Record fields carry exactly the declared names, in declaration order,
with valid values. -/
def validFields (fields : List (String × Ty)) (fvs : List (String × PyVal)) : Bool :=
  match fields, fvs with
  | [], [] => true
  | (nm, ty) :: fs, (nm', x) :: xs => nm' == nm && valid ty x && validFields fs xs
  | _, _ => false
termination_by (sizeOf fields, sizeOf fvs + 1)

end

/-- Key-uniqueness of an association list. -/
def nodupKeys {α : Type} : List (String × α) → Bool
  | [] => true
  | (k, _) :: rest => !(rest.any fun p => p.1 == k) && nodupKeys rest

mutual

/-- The descriptor fragment for which the amended round-trip claim is stated:
no unions (hence no `Optional`), no `Any`, tuples of declared arity at least
one, and records whose field names are distinct and avoid the envelope key
`"value"`. -/
def wfTy (t : Ty) : Bool :=
  match t with
  | .prim _ => true
  | .noneT => true
  | .listOf e => wfTy e
  | .mapOf ve => wfTy ve
  | .tupleOf es => !es.isEmpty && wfTyList es
  | .recordOf _ fields =>
    nodupKeys fields && !(fields.any fun p => p.1 == "value") && wfTyFields fields
  | .enumOf _ _ => true
  | .unionOf _ => false
  | .anyT => false
termination_by (sizeOf t, 0)

/-- `wfTy` for every member. -/
def wfTyList (ts : List Ty) : Bool :=
  match ts with
  | [] => true
  | t :: rest => wfTy t && wfTyList rest
termination_by (sizeOf ts, 1)

/-- `wfTy` for every field type. -/
def wfTyFields (fields : List (String × Ty)) : Bool :=
  match fields with
  | [] => true
  | (_, ty) :: rest => wfTy ty && wfTyFields rest
termination_by (sizeOf fields, 1)

end

mutual

/-- No dict anywhere inside the value carries the key `"value"` (so data can
never be mistaken for the wire envelope). -/
def vkf (v : PyVal) : Bool :=
  match v with
  | .dict kvs => !(kvs.any fun p => p.1 == "value") && vkfPairs kvs
  | .list xs => vkfList xs
  | .tuple xs => vkfList xs
  | .obj _ fvs => vkfPairs fvs
  | _ => true
termination_by (sizeOf v, 1)

/-- `vkf` for every member. -/
def vkfList (xs : List PyVal) : Bool :=
  match xs with
  | [] => true
  | x :: rest => vkf x && vkfList rest
termination_by (sizeOf xs, 0)

/-- `vkf` for every pair value. -/
def vkfPairs (kvs : List (String × PyVal)) : Bool :=
  match kvs with
  | [] => true
  | (_, v) :: rest => vkf v && vkfPairs rest
termination_by (sizeOf kvs, 0)

end

/-- Two booleans agreeing as propositions are equal. -/
theorem boolEqOfIff {a b : Bool} (h : a = true ↔ b = true) : a = b := by
  cases a <;> cases b <;> simp_all

/-- Looking an enum member's wire form up by Python equality is looking its
scalar up by scalar equality. -/
theorem scalarEqPyVal_toPyVal (s u : Scalar) :
    scalarEqPyVal s (scalarToPyVal u) = decide (s = u) := by
  cases s <;> cases u <;>
    (apply boolEqOfIff; simp [scalarEqPyVal, scalarToPyVal, beq_iff_eq])

/-- A key that none of the pairs carries looks up to nothing. -/
theorem lookupKey_eq_none_of_no_key {α : Type} (k : String) (l : List (String × α))
    (h : (l.any fun p => p.1 == k) = false) : lookupKey k l = Option.none := by
  induction l with
  | nil => rfl
  | cons hd tl ih =>
    rw [lookupKey]
    simp only [List.any_cons, Bool.or_eq_false_iff] at h
    rw [if_neg (by simpa using h.1)]
    exact ih h.2

/-- With unique keys, every pair of the list looks up to its own value. -/
theorem lookup_self_of_nodup {α : Type} (l : List (String × α)) (h : nodupKeys l = true) :
    ∀ p ∈ l, lookupKey p.1 l = some p.2 := by
  induction l with
  | nil => intro p hp; cases hp
  | cons hd tl ih =>
    rcases hd with ⟨k, v⟩
    rw [nodupKeys] at h
    simp only [Bool.and_eq_true, Bool.not_eq_true'] at h
    intro p hp
    rcases List.mem_cons.1 hp with rfl | hmem
    · rw [lookupKey, if_pos rfl]
    · rw [lookupKey]
      have hne : k ≠ p.1 := by
        intro hk
        have : (tl.any fun q => q.1 == k) = true :=
          List.any_eq_true.2 ⟨p, hmem, by simp [hk]⟩
        rw [this] at h
        cases h.1
      rw [if_neg hne]
      exact ih h.2 p hmem

/-- `nodupKeys` only depends on the key list. -/
theorem nodupKeys_of_names {α β : Type} (l1 : List (String × α)) (l2 : List (String × β))
    (h : l1.map Prod.fst = l2.map Prod.fst) (hn : nodupKeys l1 = true) :
    nodupKeys l2 = true := by
  induction l1 generalizing l2 with
  | nil =>
    cases l2 with
    | nil => rfl
    | cons b l2' => simp at h
  | cons a l1' ih =>
    cases l2 with
    | nil => simp at h
    | cons b l2' =>
      simp only [List.map_cons, List.cons.injEq] at h
      rw [nodupKeys] at hn ⊢
      rcases a with ⟨k1, v1⟩
      rcases b with ⟨k2, v2⟩
      simp only [Bool.and_eq_true, Bool.not_eq_true'] at hn ⊢
      have hkeys : l1'.map Prod.fst = l2'.map Prod.fst := h.2
      have hk : k1 = k2 := h.1
      constructor
      · rw [← hk]
        have : ∀ q ∈ l2', q.1 ∈ l1'.map Prod.fst := by
          intro q hq
          rw [hkeys]
          exact List.mem_map_of_mem Prod.fst hq
        cases hany : l2'.any fun p => p.1 == k1 with
        | false => rfl
        | true =>
          rcases List.any_eq_true.1 hany with ⟨q, hq, hqk⟩
          rcases List.mem_map.1 (this q hq) with ⟨p, hp, hpq⟩
          have : (l1'.any fun p => p.1 == k1) = true :=
            List.any_eq_true.2 ⟨p, hp, by rw [hpq]; exact hqk⟩
          rw [this] at hn
          cases hn.1
      · exact ih l2' hkeys hn.2

/-- Aligned record fields carry the declared names. -/
theorem validFields_names (fields : List (String × Ty)) (fvs : List (String × PyVal))
    (h : validFields fields fvs = true) : fvs.map Prod.fst = fields.map Prod.fst := by
  induction fields generalizing fvs with
  | nil =>
    cases fvs with
    | nil => rfl
    | cons b l => simp [validFields] at h
  | cons a fs ih =>
    rcases a with ⟨nm, ty⟩
    cases fvs with
    | nil => simp [validFields] at h
    | cons b xs =>
      rcases b with ⟨nm', x⟩
      simp only [validFields, Bool.and_eq_true, beq_iff_eq] at h
      obtain ⟨⟨h1, h2⟩, h3⟩ := h
      simp [h1, ih xs h3]

/-- Positionally valid tuples have the declared arity. -/
theorem validTupleElems_length (es : List Ty) (xs : List PyVal)
    (h : validTupleElems es xs = true) : xs.length = es.length := by
  induction es generalizing xs with
  | nil =>
    cases xs with
    | nil => rfl
    | cons x l => simp [validTupleElems] at h
  | cons e es' ih =>
    cases xs with
    | nil => simp [validTupleElems] at h
    | cons x xs' =>
      simp only [validTupleElems, Bool.and_eq_true] at h
      simp [ih xs' h.2]

/-- Lift a raw-encoding round trip through the wire envelope: whatever
`wrapNeeded` decides, `encode_any` then `decode_any` restores the value. -/
theorem encAny_of_raw (t : Ty) (v w : PyVal) (he : encRaw v t = Except.ok w)
    (hu : unwrap_value w = w) (hd : decodeCore w t = Except.ok v) :
    ∃ w2, encode_any v t = Except.ok w2 ∧ decode_any w2 t = Except.ok v := by
  by_cases hwrap : wrapNeeded w = true
  · refine ⟨PyVal.dict [("value", w)], ?_, ?_⟩
    · rw [encode_any, he]
      simp [hwrap]
    · rw [decode_any]
      have : unwrap_value (PyVal.dict [("value", w)]) = w := by
        simp [unwrap_value, lookupKey]
      rw [this]
      exact hd
  · refine ⟨w, ?_, ?_⟩
    · rw [encode_any, he]
      simp [hwrap]
    · rw [decode_any, hu]
      exact hd

/-- A value that is valid for a primitive descriptor is a scalar, hence no
envelope unwrap touches it. -/
theorem unwrap_of_valid_prim (k : PrimKind) (v : PyVal) (h : valid (Ty.prim k) v = true) :
    unwrap_value v = v := by
  cases k <;> cases v <;> simp_all [valid, unwrap_value]

/-- An enum member's wire form is a scalar, hence no envelope unwrap touches
it. -/
theorem unwrap_scalarToPyVal (u : Scalar) :
    unwrap_value (scalarToPyVal u) = scalarToPyVal u := by
  cases u <;> rfl

/-- A dict without the key `"value"` is untouched by the envelope unwrap. -/
theorem unwrap_dict_of_no_value (kvs : List (String × PyVal))
    (h : lookupKey "value" kvs = Option.none) :
    unwrap_value (PyVal.dict kvs) = PyVal.dict kvs := by
  simp [unwrap_value, h]

/-- Key-presence tests only depend on the key list. -/
theorem anyKey_of_names {α β : Type} (k : String) :
    ∀ (l1 : List (String × α)) (l2 : List (String × β)),
      l1.map Prod.fst = l2.map Prod.fst →
      (l1.any fun p => p.1 == k) = (l2.any fun p => p.1 == k) := by
  intro l1
  induction l1 with
  | nil =>
    intro l2 h
    cases l2 with
    | nil => rfl
    | cons b l2' => simp at h
  | cons a l1' ih =>
    intro l2 h
    cases l2 with
    | nil => simp at h
    | cons b l2' =>
      simp only [List.map_cons, List.cons.injEq] at h
      simp [List.any_cons, h.1, ih l2' h.2]

/-- Induction-hypothesis shape for the round-trip proof: every descriptor of
size at most `n` raw-encodes every valid, envelope-collision-free value to a
wire value that is not mistaken for an envelope and decodes back to the
original. -/
def RTIH (n : Nat) : Prop :=
  ∀ t, sizeOf t ≤ n → ∀ v, wfTy t = true → valid t v = true → vkf v = true →
    ∃ w, encRaw v t = Except.ok w ∧ unwrap_value w = w ∧ decodeCore w t = Except.ok v

/-- Round trip for the element loops of a typed list. -/
theorem RT_list (n : Nat) (hIH : RTIH n) (e : Ty) (he : sizeOf e ≤ n) (hwf : wfTy e = true) :
    ∀ xs, validElems e xs = true → vkfList xs = true →
      ∃ ws, encElemsLoop xs e = Except.ok ws ∧ decElemsLoop ws e = Except.ok xs := by
  intro xs
  induction xs with
  | nil => exact fun _ _ => ⟨[], by rw [encElemsLoop], by rw [decElemsLoop]⟩
  | cons x rest ih =>
    intro hv hk
    simp only [validElems, Bool.and_eq_true] at hv
    simp only [vkfList, Bool.and_eq_true] at hk
    obtain ⟨w, hew, huw, hdw⟩ := hIH e he x hwf hv.1 hk.1
    obtain ⟨ws, hews, hdws⟩ := ih hv.2 hk.2
    refine ⟨w :: ws, ?_, ?_⟩
    · simp [encElemsLoop, hew, hews]
    · simp [decElemsLoop, decode_any, huw, hdw, hdws]

/-- Round trip for the pair loops of a typed dict (keys preserved). -/
theorem RT_pairs (n : Nat) (hIH : RTIH n) (ve : Ty) (he : sizeOf ve ≤ n)
    (hwf : wfTy ve = true) :
    ∀ kvs, validPairs ve kvs = true → vkfPairs kvs = true →
      ∃ ws, encPairsLoop kvs ve = Except.ok ws ∧ decPairsLoop ws ve = Except.ok kvs
        ∧ ws.map Prod.fst = kvs.map Prod.fst := by
  intro kvs
  induction kvs with
  | nil => exact fun _ _ => ⟨[], by rw [encPairsLoop], by rw [decPairsLoop], rfl⟩
  | cons p rest ih =>
    rcases p with ⟨k, v⟩
    intro hv hk
    simp only [validPairs, Bool.and_eq_true] at hv
    simp only [vkfPairs, Bool.and_eq_true] at hk
    obtain ⟨w, hew, huw, hdw⟩ := hIH ve he v hwf hv.1 hk.1
    obtain ⟨ws, hews, hdws, hmap⟩ := ih hv.2 hk.2
    refine ⟨(k, w) :: ws, ?_, ?_, ?_⟩
    · simp [encPairsLoop, hew, hews]
    · simp [decPairsLoop, decode_any, huw, hdw, hdws]
    · simp [hmap]

/-- Round trip for the positional tuple loops (elements travel through the
outer, enveloping `encode_any`). -/
theorem RT_tuple (n : Nat) (hIH : RTIH n) :
    ∀ es xs, sizeOf es ≤ n → wfTyList es = true → validTupleElems es xs = true →
      vkfList xs = true →
      ∃ ws, encTupleElemsLoop xs es = Except.ok ws ∧ ws.length = xs.length
        ∧ decTupleElemsLoop ws es = Except.ok xs := by
  intro es
  induction es with
  | nil =>
    intro xs _ _ hv _
    cases xs with
    | nil => exact ⟨[], by rw [encTupleElemsLoop], rfl, by rw [decTupleElemsLoop]⟩
    | cons x xs' => simp [validTupleElems] at hv
  | cons e es' ih =>
    intro xs hsz hwf hv hk
    cases xs with
    | nil => simp [validTupleElems] at hv
    | cons x xs' =>
      simp only [validTupleElems, Bool.and_eq_true] at hv
      simp only [vkfList, Bool.and_eq_true] at hk
      simp only [wfTyList, Bool.and_eq_true] at hwf
      have hsz' : sizeOf e ≤ n ∧ sizeOf es' ≤ n := by
        simp only [List.cons.sizeOf_spec] at hsz
        omega
      obtain ⟨w0, hew, huw, hdw⟩ := hIH e hsz'.1 x hwf.1 hv.1 hk.1
      obtain ⟨w2, hew2, hdw2⟩ := encAny_of_raw e x w0 hew huw hdw
      obtain ⟨ws', hews, hlen, hdws⟩ := ih xs' hsz'.2 hwf.2 hv.2 hk.2
      refine ⟨w2 :: ws', ?_, ?_, ?_⟩
      · simp [encTupleElemsLoop, hew2, hews]
      · simp [hlen]
      · simp [decTupleElemsLoop, hdw2, hdws]

/-- Round trip for the record field loops: encoding iterates the annotations
looking values up in the instance dict; decoding iterates the wire dict
looking types up in the annotations. -/
theorem RT_fields (n : Nat) (hIH : RTIH n) (fieldsAll : List (String × Ty))
    (fvsAll : List (String × PyVal)) :
    ∀ fl vl, sizeOf fl ≤ n → wfTyFields fl = true → validFields fl vl = true →
      vkfPairs vl = true →
      (∀ p ∈ vl, lookupKey p.1 fvsAll = some p.2) →
      (∀ f ∈ fl, lookupKey f.1 fieldsAll = some f.2) →
      ∃ ws, encFieldsLoop fl fvsAll = Except.ok ws
        ∧ ws.map Prod.fst = fl.map Prod.fst
        ∧ decRecFieldsLoop ws fieldsAll = Except.ok vl := by
  intro fl
  induction fl with
  | nil =>
    intro vl _ _ hv _ _ _
    cases vl with
    | nil => exact ⟨[], by rw [encFieldsLoop], rfl, by rw [decRecFieldsLoop]⟩
    | cons p xs => simp [validFields] at hv
  | cons f fs ih =>
    rcases f with ⟨nm, ty⟩
    intro vl hsz hwf hv hk hlv hlf
    cases vl with
    | nil => simp [validFields] at hv
    | cons p xs =>
      rcases p with ⟨nm', x⟩
      simp only [validFields, Bool.and_eq_true, beq_iff_eq] at hv
      obtain ⟨⟨hnm, hvx⟩, hvrest⟩ := hv
      subst hnm
      simp only [vkfPairs, Bool.and_eq_true] at hk
      simp only [wfTyFields, Bool.and_eq_true] at hwf
      have hsz' : sizeOf ty ≤ n ∧ sizeOf fs ≤ n := by
        simp only [List.cons.sizeOf_spec, Prod.mk.sizeOf_spec] at hsz
        omega
      obtain ⟨w, hew, huw, hdw⟩ := hIH ty hsz'.1 x hwf.1 hvx hk.1
      obtain ⟨ws', hews, hmap, hdws⟩ :=
        ih xs hsz'.2 hwf.2 hvrest hk.2
          (fun p hp => hlv p (List.mem_cons_of_mem _ hp))
          (fun f hf => hlf f (List.mem_cons_of_mem _ hf))
      have hlkv : lookupKey nm' fvsAll = some x := hlv (nm', x) (List.mem_cons_self _ _)
      have hlkf : lookupKey nm' fieldsAll = some ty := hlf (nm', ty) (List.mem_cons_self _ _)
      refine ⟨(nm', w) :: ws', ?_, ?_, ?_⟩
      · simp [encFieldsLoop, hlkv, hew, hews]
      · simp [hmap]
      · simp only [decRecFieldsLoop, decode_any, huw, hdw, hdws, okBind, pureExceptEq]
        split
        · next heq => rw [heq] at hlkf; cases hlkf
        · next ty2 heq =>
          rw [heq] at hlkf
          injection hlkf with he2
          subst he2
          simp [decode_any, huw, hdw, hdws]

/-- The core round-trip induction: for every descriptor in the well-formed
fragment, raw-encoding a valid, collision-free value yields a wire value that
the envelope unwrap leaves alone and that decodes back to the original. -/
theorem RT_core : ∀ n, RTIH n := by
  intro n
  induction n with
  | zero =>
    intro t hsz
    exfalso
    cases t <;> (simp at hsz; try omega)
  | succ n ih =>
    intro t hsz v hwf hv hk
    cases t with
    | prim k =>
      exact ⟨v, by simp [encRaw], unwrap_of_valid_prim k v hv, by simp [decodeCore]⟩
    | noneT =>
      cases v <;> simp only [valid] at hv <;> try exact absurd hv Bool.false_ne_true
      exact ⟨PyVal.none, by simp [encRaw], rfl, by simp [decodeCore]⟩
    | listOf e =>
      simp only [wfTy] at hwf
      have hen : sizeOf e ≤ n := by simp at hsz; omega
      cases v <;> simp only [valid] at hv <;> try exact absurd hv Bool.false_ne_true
      rename_i xs
      simp only [vkf] at hk
      by_cases hfo : isFirstOrderTy e = true
      · exact ⟨PyVal.list xs, by simp [encRaw, hfo], rfl, by simp [decodeCore, hfo]⟩
      · obtain ⟨ws, hews, hdws⟩ := RT_list n ih e hen hwf xs hv hk
        refine ⟨PyVal.list ws, ?_, rfl, ?_⟩
        · simp [encRaw, hfo, hews]
        · simp [decodeCore, hfo, hdws]
    | mapOf ve =>
      simp only [wfTy] at hwf
      have hen : sizeOf ve ≤ n := by simp at hsz; omega
      cases v <;> simp only [valid] at hv <;> try exact absurd hv Bool.false_ne_true
      rename_i kvs
      simp only [vkf, Bool.and_eq_true, Bool.not_eq_true'] at hk
      have hnv : lookupKey "value" kvs = Option.none := lookupKey_eq_none_of_no_key _ _ hk.1
      by_cases hfo : isFirstOrderTy ve = true
      · exact ⟨PyVal.dict kvs, by simp [encRaw, hfo], unwrap_dict_of_no_value kvs hnv,
          by simp [decodeCore, hfo]⟩
      · obtain ⟨ws, hews, hdws, hmap⟩ := RT_pairs n ih ve hen hwf kvs hv hk.2
        have hnv2 : lookupKey "value" ws = Option.none := by
          apply lookupKey_eq_none_of_no_key
          rw [anyKey_of_names "value" ws kvs hmap]
          exact hk.1
        refine ⟨PyVal.dict ws, ?_, unwrap_dict_of_no_value ws hnv2, ?_⟩
        · simp [encRaw, hfo, hews]
        · simp [decodeCore, hfo, hdws]
    | tupleOf es =>
      simp only [wfTy, Bool.and_eq_true, Bool.not_eq_true'] at hwf
      have hen : sizeOf es ≤ n := by simp at hsz; omega
      cases v <;> simp only [valid] at hv <;> try exact absurd hv Bool.false_ne_true
      rename_i xs
      simp only [vkf] at hk
      obtain ⟨ws, hews, hlen, hdws⟩ := RT_tuple n ih es xs hen hwf.2 hv hk
      have hlen2 : xs.length = es.length := validTupleElems_length es xs hv
      cases es with
      | nil => simp at hwf
      | cons e0 esRest =>
        refine ⟨PyVal.list ws, ?_, rfl, ?_⟩
        · simp [encRaw, hews]
        · simp [decodeCore, hlen, hlen2, hdws]
    | unionOf vs => simp only [wfTy] at hwf; exact absurd hwf Bool.false_ne_true
    | anyT => simp only [wfTy] at hwf; exact absurd hwf Bool.false_ne_true
    | enumOf ename members =>
      cases v <;> simp only [valid] at hv <;> try exact absurd hv Bool.false_ne_true
      rename_i en lbl uv
      simp only [Bool.and_eq_true, beq_iff_eq, decide_eq_true_eq] at hv
      obtain ⟨hen2, hfind⟩ := hv
      subst hen2
      refine ⟨scalarToPyVal uv, by simp [encRaw], unwrap_scalarToPyVal uv, ?_⟩
      simp only [decodeCore, scalarEqPyVal_toPyVal, hfind]
    | recordOf cname fields =>
      simp only [wfTy, Bool.and_eq_true, Bool.not_eq_true'] at hwf
      obtain ⟨⟨hnd, hnv⟩, hwff⟩ := hwf
      have hen : sizeOf fields ≤ n := by simp at hsz; omega
      cases v <;> simp only [valid] at hv <;> try exact absurd hv Bool.false_ne_true
      rename_i cn fvs
      simp only [Bool.and_eq_true, beq_iff_eq] at hv
      obtain ⟨hcn, hvf⟩ := hv
      subst hcn
      simp only [vkf] at hk
      have hnames := validFields_names fields fvs hvf
      have hndv : nodupKeys fvs = true := nodupKeys_of_names fields fvs hnames.symm hnd
      obtain ⟨ws, hews, hmap, hdws⟩ := RT_fields n ih fields fvs fields fvs hen hwff hvf hk
        (lookup_self_of_nodup fvs hndv) (lookup_self_of_nodup fields hnd)
      have hnvws : lookupKey "value" ws = Option.none := by
        apply lookupKey_eq_none_of_no_key
        rw [anyKey_of_names "value" ws fields hmap]
        exact hnv
      refine ⟨PyVal.dict ws, ?_, unwrap_dict_of_no_value ws hnvws, ?_⟩
      · simp [encRaw, hews]
      · simp [decodeCore, hdws]

/-- C4 counterexample: the envelope key collides with data.  The map value
`{"value": 7}` is valid for `Dict[str, int]` and encodes to itself (no
envelope is added around a dict), but decoding strips the `"value"` key as if
it were the wire envelope and returns `7`, not the original map. -/
theorem C4_envelope_collision :
    valid (Ty.mapOf (Ty.prim PrimKind.int)) (PyVal.dict [("value", PyVal.int 7)]) = true
    ∧ encode_any (PyVal.dict [("value", PyVal.int 7)]) (Ty.mapOf (Ty.prim PrimKind.int))
        = Except.ok (PyVal.dict [("value", PyVal.int 7)])
    ∧ decode_any (PyVal.dict [("value", PyVal.int 7)]) (Ty.mapOf (Ty.prim PrimKind.int))
        = Except.ok (PyVal.int 7)
    ∧ PyVal.int 7 ≠ PyVal.dict [("value", PyVal.int 7)] := by
  refine ⟨?_, ?_, ?_, by simp⟩
  · simp [valid, validPairs]
  · simp [encode_any, encRaw, isFirstOrderTy, wrapNeeded]
  · simp [decode_any, unwrap_value, lookupKey, decodeCore, isFirstOrderTy]

/-- C4 amended: the round trip `decode(encode(v, d), d) = v` holds for every
descriptor `d` in the union- and `Any`-free fragment (primitives, `NoneType`,
lists, string-keyed maps, tuples of declared arity, enums, records with
distinct field names none of which is `"value"`) and every value `v` valid
for `d` in which no dict carries the key `"value"`.  Outside this fragment it
fails: the `"value"` collision above, and union variant selection (e.g. the
cartesian tuple matcher of C8, or a list decoded by an earlier tuple variant)
can change or reject the representation. -/
theorem C4_roundtrip_restricted (t : Ty) (v : PyVal) (hwf : wfTy t = true)
    (hv : valid t v = true) (hk : vkf v = true) :
    ∃ w, encode_any v t = Except.ok w ∧ decode_any w t = Except.ok v := by
  obtain ⟨w, he, hu, hd⟩ := RT_core (sizeOf t) t (le_refl _) v hwf hv hk
  exact encAny_of_raw t v w he hu hd

/-- C4 witness: the amended round trip at the record
`Ham {a : str, b : int}` with value `{a: "x", b: 1}` (scenario A of the
spec). -/
theorem C4_roundtrip_witness :
    wfTy (Ty.recordOf "Ham" [("a", Ty.prim PrimKind.str), ("b", Ty.prim PrimKind.int)]) = true
    ∧ valid (Ty.recordOf "Ham" [("a", Ty.prim PrimKind.str), ("b", Ty.prim PrimKind.int)])
        (PyVal.obj "Ham" [("a", PyVal.str "x"), ("b", PyVal.int 1)]) = true
    ∧ vkf (PyVal.obj "Ham" [("a", PyVal.str "x"), ("b", PyVal.int 1)]) = true
    ∧ ∃ w, encode_any (PyVal.obj "Ham" [("a", PyVal.str "x"), ("b", PyVal.int 1)])
          (Ty.recordOf "Ham" [("a", Ty.prim PrimKind.str), ("b", Ty.prim PrimKind.int)])
          = Except.ok w
        ∧ decode_any w (Ty.recordOf "Ham" [("a", Ty.prim PrimKind.str), ("b", Ty.prim PrimKind.int)])
          = Except.ok (PyVal.obj "Ham" [("a", PyVal.str "x"), ("b", PyVal.int 1)]) :=
  ⟨by simp [wfTy, wfTyFields, nodupKeys],
   by simp [valid, validFields],
   by simp [vkf, vkfPairs],
   C4_roundtrip_restricted _ _
     (by simp [wfTy, wfTyFields, nodupKeys])
     (by simp [valid, validFields])
     (by simp [vkf, vkfPairs])⟩
